import Mathlib

/-
Verification of the JcQ deterministic trade-simulation core.

The Python sources under `src/jcq` are embedded shallowly:

* floats become rationals (`ℚ`); where pandas/NumPy NaN semantics matter
  (feature columns), a float is `PF := Option ℚ` with `none` playing the
  role of NaN: NaN propagates through arithmetic and every ordered
  comparison involving NaN is false, matching IEEE / pandas behaviour;
* a possibly-absent DataFrame column cell is `Option PF`
  (`none` = the column is absent, `some none` = present but NaN);
* Python exceptions (`ValueError`, the `NameError`/`UnboundLocalError`
  raised by reading an unassigned local) become `Except String`;
* mutable object state (`RiskLimits`) is threaded explicitly.
-/

/-- A pandas/NumPy float value: `none` is NaN, `some q` a finite value. -/
abbrev PF := Option ℚ

/-- NaN-propagating addition. -/
def PF.add : PF → PF → PF
  | some a, some b => some (a + b)
  | _, _ => none

/-- NaN-propagating subtraction. -/
def PF.sub : PF → PF → PF
  | some a, some b => some (a - b)
  | _, _ => none

/-- NaN-propagating multiplication. -/
def PF.mul : PF → PF → PF
  | some a, some b => some (a * b)
  | _, _ => none

/-- NaN-propagating division.  Every division in the embedded code is
guarded by a strict-positivity test on the divisor, so the `ℚ`
division-by-zero convention is never exercised. -/
def PF.div : PF → PF → PF
  | some a, some b => some (a / b)
  | _, _ => none

/-- NaN-propagating absolute value (`abs` in the Python source). -/
def PF.pabs : PF → PF
  | some a => some |a|
  | none => none

/-- Strict `<` on floats: false whenever either side is NaN. -/
def PF.blt : PF → PF → Bool
  | some a, some b => decide (a < b)
  | _, _ => false

/-- `≤` on floats: false whenever either side is NaN. -/
def PF.ble : PF → PF → Bool
  | some a, some b => decide (a ≤ b)
  | _, _ => false

/-- `==` on floats: false whenever either side is NaN (IEEE semantics). -/
def PF.beq : PF → PF → Bool
  | some a, some b => decide (a = b)
  | _, _ => false

/-- Trade side; the source uses the strings `"long"` / `"short"`. -/
inductive Side
  | long
  | short
  deriving DecidableEq, Repr

/-- One row of the feature table consumed by
`jcq/strategy/candidates.py::generate_candidates`.  `close`, `high`,
`low` come from the raw bars; the remaining columns are the derived
features the generator tests for with `"…" in latest` before reading.
An `Option PF` cell is `none` when the column is absent from the frame
and `some v` when present with float value `v` (`v = none` for NaN). -/
structure FeatureRow where
  close : Option PF
  high : PF
  low : PF
  session_vwap : Option PF
  atr_14 : Option PF
  opening_range_high : Option PF
  opening_range_low : Option PF
  prior_high : Option PF
  prior_low : Option PF
  deriving DecidableEq, Repr, Inhabited

/-- A candidate dict as built by `generate_candidates`
(`candidates.py`, the repeated `candidates.append({...})` blocks).
The `context` map of supporting values is omitted: no examined property
mentions it. -/
structure Candidate where
  entry : PF
  stop : PF
  target : PF
  risk_points : PF
  reward_points : PF
  side : Side
  tags : List String
  deriving DecidableEq, Repr

/-- The strategy configuration keys read by `generate_candidates`,
already resolved through the `cfg.get(..., default)` chains of the
source; the field defaults are exactly the Python defaults
(`candidates.py` lines 41-246). -/
structure CandCfg where
  vwap_enabled : Bool := true
  atr_multipliers : List ℚ := [1/2, 1, 3/2, 2]
  min_rr : ℚ := 3/2
  max_rr : ℚ := 5
  opening_range_enabled : Bool := true
  opening_range_tolerance_ticks : ℚ := 2
  prior_session_enabled : Bool := true
  prior_session_tolerance_ticks : ℚ := 2
  swing_enabled : Bool := true
  pivot_lookback : ℕ := 5
  min_swing_size_atr : ℚ := 1
  deriving Repr

/-- The reward:risk expression appearing verbatim in every family:
`rr = reward_points / risk_points if risk_points > 0 else 0`. -/
def rrOf (reward risk : PF) : PF :=
  if PF.blt (some 0) risk then PF.div reward risk else some 0

/-- Long VWAP mean-reversion candidate for one ATR multiple `k`
(`candidates.py` lines 48-69).  The Python tag `f"vwap-{k}atr"` is
rendered with `ℚ`'s `toString`. -/
def vwapLong (vwap atr cp : PF) (cfg : CandCfg) (k : ℚ) : Option Candidate :=
  let entry := PF.sub vwap (PF.mul (some k) atr)
  let stop := PF.sub entry (PF.mul atr (some (1/2)))
  let target := PF.add entry (PF.mul atr (some (k + 1)))
  if PF.blt stop cp && PF.blt cp target then
    let risk := PF.pabs (PF.sub entry stop)
    let reward := PF.pabs (PF.sub target entry)
    let rr := rrOf reward risk
    if PF.ble (some cfg.min_rr) rr && PF.ble rr (some cfg.max_rr) then
      some { entry := entry, stop := stop, target := target,
             risk_points := risk, reward_points := reward,
             side := .long, tags := ["vwap", "vwap-" ++ toString k ++ "atr"] }
    else none
  else none

/-- Short VWAP mean-reversion candidate for one ATR multiple `k`
(`candidates.py` lines 71-91). -/
def vwapShort (vwap atr cp : PF) (cfg : CandCfg) (k : ℚ) : Option Candidate :=
  let entry := PF.add vwap (PF.mul (some k) atr)
  let stop := PF.add entry (PF.mul atr (some (1/2)))
  let target := PF.sub entry (PF.mul atr (some (k + 1)))
  if PF.blt target cp && PF.blt cp stop then
    let risk := PF.pabs (PF.sub entry stop)
    let reward := PF.pabs (PF.sub entry target)
    let rr := rrOf reward risk
    if PF.ble (some cfg.min_rr) rr && PF.ble rr (some cfg.max_rr) then
      some { entry := entry, stop := stop, target := target,
             risk_points := risk, reward_points := reward,
             side := .short, tags := ["vwap", "vwap+" ++ toString k ++ "atr"] }
    else none
  else none

/-- The VWAP family block (`candidates.py` lines 41-91).  Returns the
generated candidates together with the binding of the local variable
`atr`: `some v` iff line 44 `atr = latest["atr_14"]` executed.  The
later opening-range block reads this local again, so an unassigned
`atr` there raises in Python; the binding is returned to model that. -/
def vwapFamily (latest : FeatureRow) (cp : PF) (cfg : CandCfg) :
    List Candidate × Option PF :=
  if cfg.vwap_enabled then
    match latest.session_vwap, latest.atr_14 with
    | some vwap, some atr =>
      if vwap.isSome then
        (cfg.atr_multipliers.flatMap
          (fun k => (vwapLong vwap atr cp cfg k).toList
                    ++ (vwapShort vwap atr cp cfg k).toList),
         some atr)
      else ([], none)
    | _, _ => ([], none)
  else ([], none)

/-- Long opening-range-low retest (`candidates.py` lines 101-119).
The stop expression `orl - atr * 0.5 if "atr_14" in latest else …`
reads the local `atr` assigned only inside the VWAP block; when
`atr_14` is a column but that block did not run, Python raises
`UnboundLocalError` (a `NameError`), modelled by the thrown string. -/
def orLong (orh orl cp : PF) (cfg : CandCfg) (atr14_present : Bool)
    (atrVar : Option PF) (tol : ℚ) : Except String (List Candidate) :=
  if PF.ble (PF.pabs (PF.sub cp orl)) (some tol) then do
    let stop ←
      if atr14_present then
        match atrVar with
        | some a => pure (PF.sub orl (PF.mul a (some (1/2))))
        | none => throw "NameError: atr is not defined"
      else
        pure (PF.sub orl (PF.mul (PF.sub orh orl) (some (1/2))))
    let target := orh
    let risk := PF.pabs (PF.sub orl stop)
    let reward := PF.pabs (PF.sub target orl)
    let rr := rrOf reward risk
    if PF.ble (some cfg.min_rr) rr then
      pure [{ entry := orl, stop := stop, target := target,
              risk_points := risk, reward_points := reward,
              side := .long, tags := ["opening_range", "orl_retest"] }]
    else pure []
  else pure []

/-- Short opening-range-high retest (`candidates.py` lines 121-139). -/
def orShort (orh orl cp : PF) (cfg : CandCfg) (atr14_present : Bool)
    (atrVar : Option PF) (tol : ℚ) : Except String (List Candidate) :=
  if PF.ble (PF.pabs (PF.sub cp orh)) (some tol) then do
    let stop ←
      if atr14_present then
        match atrVar with
        | some a => pure (PF.add orh (PF.mul a (some (1/2))))
        | none => throw "NameError: atr is not defined"
      else
        pure (PF.add orh (PF.mul (PF.sub orh orl) (some (1/2))))
    let target := orl
    let risk := PF.pabs (PF.sub orh stop)
    let reward := PF.pabs (PF.sub orh target)
    let rr := rrOf reward risk
    if PF.ble (some cfg.min_rr) rr then
      pure [{ entry := orh, stop := stop, target := target,
              risk_points := risk, reward_points := reward,
              side := .short, tags := ["opening_range", "orh_retest"] }]
    else pure []
  else pure []

/-- The opening-range family block (`candidates.py` lines 93-139). -/
def orFamily (latest : FeatureRow) (cp : PF) (cfg : CandCfg)
    (atrVar : Option PF) : Except String (List Candidate) :=
  if cfg.opening_range_enabled then
    match latest.opening_range_high, latest.opening_range_low with
    | some orh, some orl =>
      let tol := cfg.opening_range_tolerance_ticks * (1/4)
      if orh.isSome && orl.isSome then do
        let longs ← orLong orh orl cp cfg latest.atr_14.isSome atrVar tol
        let shorts ← orShort orh orl cp cfg latest.atr_14.isSome atrVar tol
        pure (longs ++ shorts)
      else pure []
    | _, _ => pure []
  else pure []

/-- Long prior-session-low retest (`candidates.py` lines 151-169). -/
def psLong (ph pl cp atr : PF) (cfg : CandCfg) (tol : ℚ) : List Candidate :=
  if PF.ble (PF.pabs (PF.sub cp pl)) (some tol) then
    let stop := PF.sub pl (PF.mul atr (some (1/2)))
    let target := ph
    let risk := PF.pabs (PF.sub pl stop)
    let reward := PF.pabs (PF.sub target pl)
    let rr := rrOf reward risk
    if PF.ble (some cfg.min_rr) rr then
      [{ entry := pl, stop := stop, target := target,
         risk_points := risk, reward_points := reward,
         side := .long, tags := ["prior_session", "prior_low"] }]
    else []
  else []

/-- Short prior-session-high retest (`candidates.py` lines 171-189). -/
def psShort (ph pl cp atr : PF) (cfg : CandCfg) (tol : ℚ) : List Candidate :=
  if PF.ble (PF.pabs (PF.sub cp ph)) (some tol) then
    let stop := PF.add ph (PF.mul atr (some (1/2)))
    let target := pl
    let risk := PF.pabs (PF.sub ph stop)
    let reward := PF.pabs (PF.sub ph target)
    let rr := rrOf reward risk
    if PF.ble (some cfg.min_rr) rr then
      [{ entry := ph, stop := stop, target := target,
         risk_points := risk, reward_points := reward,
         side := .short, tags := ["prior_session", "prior_high"] }]
    else []
  else []

/-- The prior-session family block (`candidates.py` lines 141-189).
Line 149 rebinds `atr` with `latest.get("atr_14", (ph - pl) * 0.1)`. -/
def psFamily (latest : FeatureRow) (cp : PF) (cfg : CandCfg) : List Candidate :=
  if cfg.prior_session_enabled then
    match latest.prior_high, latest.prior_low with
    | some ph, some pl =>
      let tol := cfg.prior_session_tolerance_ticks * (1/4)
      if ph.isSome && pl.isSome then
        let atr : PF :=
          match latest.atr_14 with
          | some v => v
          | none => PF.mul (PF.sub ph pl) (some (1/10))
        psLong ph pl cp atr cfg tol ++ psShort ph pl cp atr cfg tol
      else []
    | _, _ => []
  else []

/-- pandas `Series.max()` over floats: NaN entries are skipped; the max
of an empty or all-NaN series is NaN. -/
def pfListMax (l : List PF) : PF :=
  l.foldl (fun acc v =>
    match acc, v with
    | none, w => w
    | some a, some b => some (max a b)
    | some a, none => some a) none

/-- pandas `Series.min()` over floats, skipping NaN. -/
def pfListMin (l : List PF) : PF :=
  l.foldl (fun acc v =>
    match acc, v with
    | none, w => w
    | some a, some b => some (min a b)
    | some a, none => some a) none

/-- One iteration of the swing-high loop (`candidates.py` lines 201-222):
a pivot-high fade producing a short candidate. -/
def swingShortAt (recent : List FeatureRow) (lookback : ℕ) (cp atr : PF)
    (cfg : CandCfg) (i : ℕ) : Option Candidate :=
  let row := recent.getD i default
  let window := (recent.drop (i - lookback)).take (2 * lookback + 1)
  if PF.beq row.high (pfListMax (window.map (·.high))) then
    let swing_high := row.high
    if PF.ble (PF.mul (some cfg.min_swing_size_atr) atr) (PF.sub swing_high cp) then
      let stop := PF.add swing_high (PF.mul atr (some (1/2)))
      let target := PF.sub cp (PF.mul (PF.sub swing_high cp) (some (3/2)))
      let risk := PF.pabs (PF.sub swing_high stop)
      let reward := PF.pabs (PF.sub swing_high target)
      let rr := rrOf reward risk
      if PF.ble (some cfg.min_rr) rr then
        some { entry := swing_high, stop := stop, target := target,
               risk_points := risk, reward_points := reward,
               side := .short, tags := ["swing", "swing_high"] }
      else none
    else none
  else none

/-- One iteration of the swing-low loop (`candidates.py` lines 225-246):
a pivot-low fade producing a long candidate. -/
def swingLongAt (recent : List FeatureRow) (lookback : ℕ) (cp atr : PF)
    (cfg : CandCfg) (i : ℕ) : Option Candidate :=
  let row := recent.getD i default
  let window := (recent.drop (i - lookback)).take (2 * lookback + 1)
  if PF.beq row.low (pfListMin (window.map (·.low))) then
    let swing_low := row.low
    if PF.ble (PF.mul (some cfg.min_swing_size_atr) atr) (PF.sub cp swing_low) then
      let stop := PF.sub swing_low (PF.mul atr (some (1/2)))
      let target := PF.add cp (PF.mul (PF.sub cp swing_low) (some (3/2)))
      let risk := PF.pabs (PF.sub swing_low stop)
      let reward := PF.pabs (PF.sub target swing_low)
      let rr := rrOf reward risk
      if PF.ble (some cfg.min_rr) rr then
        some { entry := swing_low, stop := stop, target := target,
               risk_points := risk, reward_points := reward,
               side := .long, tags := ["swing", "swing_low"] }
      else none
    else none
  else none

/-- The swing family block (`candidates.py` lines 191-246).  `recent`
is `df_features.iloc[-lookback*2:]` (with Python's `iloc[-0:]` giving
the whole frame when `lookback = 0`), and both loops run over
`range(lookback, len(recent) - lookback)`.  Since the guard forces
`len(recent) = 2*lookback`, the ranges are empty for any
`lookback ≥ 1`. -/
def swingFamily (rows : List FeatureRow) (latest : FeatureRow) (cp : PF)
    (cfg : CandCfg) : List Candidate :=
  if cfg.swing_enabled then
    let lookback := cfg.pivot_lookback
    if rows.length > lookback * 2 && latest.atr_14.isSome then
      match latest.atr_14 with
      | some atr =>
        let recent :=
          if lookback * 2 = 0 then rows
          else rows.drop (rows.length - lookback * 2)
        let idxs := List.range' lookback ((recent.length - lookback) - lookback)
        idxs.filterMap (swingShortAt recent lookback cp atr cfg)
          ++ idxs.filterMap (swingLongAt recent lookback cp atr cfg)
      | none => []
    else []
  else []

/-- `jcq/strategy/candidates.py::generate_candidates`.  The result is
`.error` when the Python function raises (the unassigned-`atr`
`NameError` of the opening-range block), `.ok` with the generated list
otherwise.  `current_price = latest.get("close", 0)` and the function
returns `[]` when the frame is empty or `current_price == 0`. -/
def generate_candidates (df_features : List FeatureRow) (cfg : CandCfg) :
    Except String (List Candidate) :=
  match df_features.getLast? with
  | none => .ok []
  | some latest =>
    let current_price : PF := latest.close.getD (some 0)
    if PF.beq current_price (some 0) then .ok []
    else do
      let vf := vwapFamily latest current_price cfg
      let orCands ← orFamily latest current_price cfg vf.2
      let psCands := psFamily latest current_price cfg
      let swingCands := swingFamily df_features latest current_price cfg
      pure (vf.1 ++ orCands ++ psCands ++ swingCands)

/-- Contract specification row (`jcq/risk/contract_specs.py`). -/
structure ContractSpec where
  tick_size : ℚ
  point_value : ℚ
  tick_value : ℚ
  deriving DecidableEq, Repr

/-- `CONTRACT_SPECS["NQ"]`. -/
def nqSpec : ContractSpec := { tick_size := 1/4, point_value := 20, tick_value := 5 }

/-- `CONTRACT_SPECS["MNQ"]`. -/
def mnqSpec : ContractSpec := { tick_size := 1/4, point_value := 2, tick_value := 1/2 }

/-- `contract_specs.py::get_contract_spec`: raises `ValueError` for a
symbol outside the two-entry table. -/
def get_contract_spec (symbol : String) : Except String ContractSpec :=
  if symbol = "NQ" then .ok nqSpec
  else if symbol = "MNQ" then .ok mnqSpec
  else .error ("Unknown symbol: " ++ symbol)

/-- The risk-configuration keys read by `RiskManager`, `RiskLimits` and
`calculate_costs`, resolved through the source's `cfg.get(..., default)`
chains; field defaults are the Python defaults. -/
structure RiskCfg where
  dollars_per_r : ℚ := 100
  prefer_micro : Bool := true
  daily_max_r : ℚ := 5
  max_trades_day : ℕ := 10
  max_open_risk_r : ℚ := 3
  slippage_ticks_per_side : ℚ := 1/2
  fees_per_contract : ℚ := 1/2
  round_trip_fees : Bool := true
  deriving Repr

/-- The mutable state of `jcq/risk/limits.py::RiskLimits`: two
day-keyed dicts (association lists; trading days are integers) and the
running open-risk total.  `RiskLimits.__init__` starts with empty dicts
and `open_risk_r = 0.0`. -/
structure RiskLimitsState where
  daily_realized_r : List (ℤ × ℚ)
  daily_trades : List (ℤ × ℕ)
  open_risk_r : ℚ
  deriving DecidableEq, Repr

/-- `RiskLimits()` as built by `RiskManager.__init__`. -/
def initLimits : RiskLimitsState :=
  { daily_realized_r := [], daily_trades := [], open_risk_r := 0 }

/-- Update an association list at a key known to be present
(the Python `dict[k] += v` pattern after `reset_daily`). -/
def assocAdjust {α : Type} (l : List (ℤ × α)) (k : ℤ) (f : α → α) : List (ℤ × α) :=
  l.map (fun p => if p.1 = k then (p.1, f p.2) else p)

/-- `RiskLimits.reset_daily`: lazily insert a zero entry for the day in
each dict when absent. -/
def reset_daily (s : RiskLimitsState) (d : ℤ) : RiskLimitsState :=
  let dr := if (s.daily_realized_r.lookup d).isSome then s.daily_realized_r
            else (d, 0) :: s.daily_realized_r
  let dt := if (s.daily_trades.lookup d).isSome then s.daily_trades
            else (d, 0) :: s.daily_trades
  { s with daily_realized_r := dr, daily_trades := dt }

/-- The realized-R counter for a day (0 when the day was never touched,
matching the lazy zero initialization). -/
def realizedR (s : RiskLimitsState) (d : ℤ) : ℚ :=
  (s.daily_realized_r.lookup d).getD 0

/-- The trade-count counter for a day. -/
def tradeCount (s : RiskLimitsState) (d : ℤ) : ℕ :=
  (s.daily_trades.lookup d).getD 0

/-- `RiskLimits.add_realized_r`. -/
def add_realized_r (s : RiskLimitsState) (d : ℤ) (r : ℚ) : RiskLimitsState :=
  let s := reset_daily s d
  { s with daily_realized_r := assocAdjust s.daily_realized_r d (· + r) }

/-- `RiskLimits.add_trade`. -/
def add_trade (s : RiskLimitsState) (d : ℤ) : RiskLimitsState :=
  let s := reset_daily s d
  { s with daily_trades := assocAdjust s.daily_trades d (· + 1) }

/-- Structured stand-ins for the reason strings of `limits.py`; each
carries the measured value the f-string interpolates. -/
inductive RejectReason
  | invalid_risk_points
  | position_too_small
  | daily_max_r (current : ℚ) (max : ℚ)
  | max_trades (current : ℕ) (max : ℕ)
  | max_open_risk (new_total : ℚ) (max : ℚ)
  deriving DecidableEq, Repr

/-- `RiskLimits.check_daily_max_r` (mutates via `reset_daily`). -/
def check_daily_max_r (cfg : RiskCfg) (s : RiskLimitsState) (d : ℤ) :
    RiskLimitsState × Bool × Option RejectReason :=
  let s := reset_daily s d
  let current_r := realizedR s d
  if current_r ≤ -cfg.daily_max_r then
    (s, false, some (.daily_max_r current_r cfg.daily_max_r))
  else (s, true, none)

/-- `RiskLimits.check_max_trades` (mutates via `reset_daily`). -/
def check_max_trades (cfg : RiskCfg) (s : RiskLimitsState) (d : ℤ) :
    RiskLimitsState × Bool × Option RejectReason :=
  let s := reset_daily s d
  let current_trades := tradeCount s d
  if current_trades ≥ cfg.max_trades_day then
    (s, false, some (.max_trades current_trades cfg.max_trades_day))
  else (s, true, none)

/-- `RiskLimits.check_max_open_risk` (reads state, never mutates). -/
def check_max_open_risk (cfg : RiskCfg) (s : RiskLimitsState)
    (additional_r : ℚ) : Bool × Option RejectReason :=
  let new_open_risk := s.open_risk_r + additional_r
  if new_open_risk > cfg.max_open_risk_r then
    (false, some (.max_open_risk new_open_risk cfg.max_open_risk_r))
  else (true, none)

/-- `RiskLimits.add_open_risk`. -/
def add_open_risk (s : RiskLimitsState) (r : ℚ) : RiskLimitsState :=
  { s with open_risk_r := s.open_risk_r + r }

/-- `RiskLimits.remove_open_risk`. -/
def remove_open_risk (s : RiskLimitsState) (r : ℚ) : RiskLimitsState :=
  { s with open_risk_r := max 0 (s.open_risk_r - |r|) }

/-- The candidate fields the risk manager and engine read
(`candidate["entry"|"stop"|"target"|"side"|"risk_points"|"tags"]`),
with plain rational prices. -/
structure TradeCandidate where
  entry : ℚ
  stop : ℚ
  target : ℚ
  risk_points : ℚ
  side : Side
  tags : List String
  deriving DecidableEq, Repr

/-- The decision dict of `RiskManager.size_position`.  The Python
success dict alone carries a `"symbol"` key, hence `symbol : Option`. -/
structure RiskDecision where
  allow : Bool
  reason : Option RejectReason
  qty : ℤ
  risk_r : ℚ
  costs_estimate : ℚ
  symbol : Option String
  deriving DecidableEq, Repr

/-- `jcq/risk/risk_manager.py::RiskManager.size_position`, lines
27-146, with the `RiskLimits` state threaded explicitly.  `.error`
models the `ValueError` escaping from `get_contract_spec`, which in
Python happens before any state mutation.  The incoming `trade_date`
is already a date (the source's defensive coercion, lines 44-51, is a
no-op then). -/
def size_position (cfg : RiskCfg) (s : RiskLimitsState)
    (candidate : TradeCandidate) (symbol : String) (trade_date : ℤ) :
    Except String (RiskDecision × RiskLimitsState) :=
  let risk_points := candidate.risk_points
  if risk_points ≤ 0 then
    .ok ({ allow := false, reason := some .invalid_risk_points, qty := 0,
           risk_r := 0, costs_estimate := 0, symbol := none }, s)
  else do
    let spec ← get_contract_spec symbol
    let dollars_at_risk := cfg.dollars_per_r * 1
    let contracts : ℤ := ⌊dollars_at_risk / (risk_points * spec.point_value)⌋
    if contracts ≤ 0 then
      .ok ({ allow := false, reason := some .position_too_small, qty := 0,
             risk_r := 0, costs_estimate := 0, symbol := none }, s)
    else
      -- prefer-micro substitution (lines 83-92); `get_contract_spec("MNQ")`
      -- cannot fail, so the lookup is inlined as `mnqSpec`
      let (symbol, spec, contracts) :=
        if cfg.prefer_micro ∧ symbol = "NQ" then
          let mnq_contracts : ℤ := ⌊dollars_at_risk / (risk_points * mnqSpec.point_value)⌋
          if mnq_contracts ≥ 1 then ("MNQ", mnqSpec, mnq_contracts)
          else (symbol, spec, contracts)
        else (symbol, spec, contracts)
      let risk_r : ℚ := 1
      let (s, ok1, reason1) := check_daily_max_r cfg s trade_date
      if ¬ ok1 then
        .ok ({ allow := false, reason := reason1, qty := contracts,
               risk_r := risk_r, costs_estimate := 0, symbol := none }, s)
      else
        let (s, ok2, reason2) := check_max_trades cfg s trade_date
        if ¬ ok2 then
          .ok ({ allow := false, reason := reason2, qty := contracts,
                 risk_r := risk_r, costs_estimate := 0, symbol := none }, s)
        else
          let (ok3, reason3) := check_max_open_risk cfg s risk_r
          if ¬ ok3 then
            .ok ({ allow := false, reason := reason3, qty := contracts,
                   risk_r := risk_r, costs_estimate := 0, symbol := none }, s)
          else
            let slippage_cost := cfg.slippage_ticks_per_side * spec.tick_value * contracts
            let fees := cfg.fees_per_contract * contracts * (if cfg.round_trip_fees then 2 else 1)
            .ok ({ allow := true, reason := none, qty := contracts,
                   risk_r := risk_r, costs_estimate := slippage_cost + fees,
                   symbol := some symbol }, s)

/-- `jcq/backtest/costs.py::calculate_costs` (the `entry` flag is
accepted and ignored by the source as well). -/
def calculate_costs (symbol : String) (qty : ℤ) (cfg : RiskCfg)
    (entry : Bool) : Except String ℚ := do
  let spec ← get_contract_spec symbol
  let slippage_cost := cfg.slippage_ticks_per_side * spec.tick_value * qty
  let fees := cfg.fees_per_contract * qty
  let _ := entry
  pure (slippage_cost + fees)

/-- One OHLCV bar (`df_bars` row); `opn` is the `open` column
(`open` is reserved in Lean), `ts` the timestamp index in minutes. -/
structure Bar where
  ts : ℤ
  opn : ℚ
  high : ℚ
  low : ℚ
  close : ℚ
  deriving DecidableEq, Repr, Inhabited

/-- Result dict of `simulate_execution`. -/
structure ExecResult where
  entry_fill : ℚ
  exit_fill : ℚ
  exit_bar_idx : ℕ
  exit_reason : String
  deriving DecidableEq, Repr

/-- Stop trigger (`execution_sim.py` lines 59-66):
`low <= stop` for a long, `high >= stop` for a short. -/
def stopCond (side : Side) (bar : Bar) (stop_price : ℚ) : Bool :=
  match side with
  | .long => bar.low ≤ stop_price
  | .short => stop_price ≤ bar.high

/-- Target trigger (`execution_sim.py` lines 78-85):
`high >= target` for a long, `low <= target` for a short. -/
def targetCond (side : Side) (bar : Bar) (target_price : ℚ) : Bool :=
  match side with
  | .long => target_price ≤ bar.high
  | .short => bar.low ≤ target_price

/-- The exit phase of `simulate_execution` (`execution_sim.py` lines
54-96): `for i in range(entry_bar_idx + 1, len(bars))`, on each bar
checking the stop first and then the target; `none` when the history
is exhausted.  The still-unscanned suffix of the bar list is carried
explicitly (so the recursion is structural); `i` is the absolute index
of its head bar. -/
def exitScan (entry_fill stop_price target_price : ℚ) (side : Side) :
    ℕ → List Bar → Option ExecResult
  | _, [] => none
  | i, bar :: rest =>
    if stopCond side bar stop_price then
      some { entry_fill := entry_fill, exit_fill := stop_price,
             exit_bar_idx := i, exit_reason := "stop" }
    else if targetCond side bar target_price then
      some { entry_fill := entry_fill, exit_fill := target_price,
             exit_bar_idx := i, exit_reason := "target" }
    else exitScan entry_fill stop_price target_price side (i + 1) rest

/-- `jcq/backtest/execution_sim.py::simulate_execution`.  The entry
phase (lines 36-51) looks at the entry bar only: the order fills iff
the entry price lies in `[low, high]`, at the more adverse of entry
price and bar open; then the exit phase scans the following bars. -/
def simulate_execution (bars : List Bar) (entry_price stop_price target_price : ℚ)
    (side : Side) (entry_bar_idx : ℕ) : Option ExecResult :=
  if h : entry_bar_idx < bars.length then
    let entry_bar := bars[entry_bar_idx]
    match side with
    | .long =>
      if entry_bar.low ≤ entry_price ∧ entry_price ≤ entry_bar.high then
        exitScan (max entry_price entry_bar.opn) stop_price target_price side
          (entry_bar_idx + 1) (bars.drop (entry_bar_idx + 1))
      else none
    | .short =>
      if entry_bar.low ≤ entry_price ∧ entry_price ≤ entry_bar.high then
        exitScan (min entry_price entry_bar.opn) stop_price target_price side
          (entry_bar_idx + 1) (bars.drop (entry_bar_idx + 1))
      else none
  else none

/-
Session-day arithmetic (`jcq/core/time.py::session_day`) and the
engine's own trading-day key (`engine.py` line 120).  Timestamps are
integer minutes; a date is an integer day number; `build_features`
forces the feature index to UTC, so `current_ts.date()` is the UTC
calendar day.  The pytz conversion to the market timezone is modelled
as a fixed UTC-offset shift in minutes (−300 for America/New_York
standard time); `ℤ`'s `/` and `%` are Euclidean, i.e. floor division
for the positive divisors used here.
-/

/-- `current_ts.date()` for the UTC-indexed feature timestamps: the
UTC day number.  This is the trading-day key `BacktestEngine.run`
passes to `size_position` (engine.py line 120). -/
def engineTradeDate (ts : ℤ) : ℤ := ts / 1440

/-- The market-local calendar day of a UTC timestamp under a fixed
offset. -/
def sessionLocalDate (offsetMin ts : ℤ) : ℤ := (ts + offsetMin) / 1440

/-- The market-local hour (0-23) of a UTC timestamp under a fixed
offset. -/
def sessionLocalHour (offsetMin ts : ℤ) : ℤ := ((ts + offsetMin) % 1440) / 60

/-- `jcq/core/time.py::session_day`: a bar whose market-local hour is
`≥ 18` belongs to the next day's session, otherwise to its local
calendar day. -/
def session_day (offsetMin ts : ℤ) : ℤ :=
  if sessionLocalHour offsetMin ts ≥ 18 then sessionLocalDate offsetMin ts + 1
  else sessionLocalDate offsetMin ts

/-- A trade record as assembled by `BacktestEngine.run`
(engine.py lines 167-183). -/
structure Trade where
  ts_open : ℤ
  ts_close : ℤ
  symbol : String
  side : Side
  qty : ℤ
  entry_price : ℚ
  exit_price : ℚ
  stop_price : ℚ
  target_price : ℚ
  pnl : ℚ
  r_mult : ℚ
  fees : ℚ
  slippage : ℚ
  exit_reason : String
  tags : List String
  deriving DecidableEq, Repr

/-- `np.cumsum`. -/
def cumsum (l : List ℚ) : List ℚ := (l.scanl (· + ·) 0).tail

/-- `np.maximum.accumulate` (running maximum). -/
def runningMax : List ℚ → List ℚ
  | [] => []
  | x :: xs => xs.scanl max x

/-- Minimum of a list with a default for the empty case (`np.min` /
`Series.min` raise there; the default is never reached in the
embedded call sites). -/
def listMinD (l : List ℚ) (d : ℚ) : ℚ :=
  match l with
  | [] => d
  | x :: xs => xs.foldl min x

/-- Maximum of a list with a default for the empty case. -/
def listMaxD (l : List ℚ) (d : ℚ) : ℚ :=
  match l with
  | [] => d
  | x :: xs => xs.foldl max x

/-- `np.mean` (the ℚ convention `sum/0 = 0` stands in for NaN on an
empty list, unreachable at the embedded call sites). -/
def listMean (l : List ℚ) : ℚ := l.sum / l.length

/-- Aggregate metrics of `BacktestEngine._calculate_metrics`
(engine.py lines 204-240).  `profit_factor = none` models
`float("inf")` when there is no gross loss.  The `avg_win_r`,
`avg_loss_r` and `sharpe` entries are omitted from the embedding
(`sharpe` multiplies by the irrational `sqrt(252)`); no examined
property mentions them. -/
structure Metrics where
  total_r : ℚ
  win_rate : ℚ
  profit_factor : Option ℚ
  max_drawdown : ℚ
  num_trades : ℕ
  deriving DecidableEq, Repr

/-- `BacktestEngine._calculate_metrics`: `none` is the empty dict
returned for an empty ledger. -/
def calculate_metrics (trades : List Trade) : Option Metrics :=
  if trades.isEmpty then none
  else
    let rs := trades.map (·.r_mult)
    let wins := rs.filter (fun r => decide (0 < r))
    let losses := rs.filter (fun r => decide (r < 0))
    let gross_profit := wins.sum
    let gross_loss := |losses.sum|
    let equity := cumsum rs
    let rmax := runningMax equity
    some
      { total_r := rs.sum
        win_rate := (wins.length : ℚ) / rs.length
        profit_factor := if gross_loss > 0 then some (gross_profit / gross_loss) else none
        max_drawdown := listMinD (List.zipWith (· - ·) equity rmax) 0
        num_trades := trades.length }

/-- The settlement section of `BacktestEngine.run` (engine.py lines
140-183): PnL, costs, `r_mult` and the trade record for one resolved
execution.  Note every contract-spec and cost lookup uses the `symbol`
argument of `run`, not the possibly micro-substituted
`risk_decision["symbol"]`. -/
def settleTrade (symbol : String) (cfg_risk : RiskCfg) (bars : List Bar)
    (current_ts : ℤ) (candidate : TradeCandidate) (risk_decision : RiskDecision)
    (execution : ExecResult) : Except String Trade := do
  let qty := risk_decision.qty
  let entry_fill := execution.entry_fill
  let exit_fill := execution.exit_fill
  let pnl_points :=
    match candidate.side with
    | .long => exit_fill - entry_fill
    | .short => entry_fill - exit_fill
  let spec ← get_contract_spec symbol
  let pnl_dollars := pnl_points * spec.point_value * (qty : ℚ)
  let entry_costs ← calculate_costs symbol qty cfg_risk true
  let exit_costs ← calculate_costs symbol qty cfg_risk false
  let total_costs := entry_costs + exit_costs
  let net_pnl := pnl_dollars - total_costs
  let risk_points := candidate.risk_points
  let r_mult :=
    if risk_points > 0 then net_pnl / (risk_points * spec.point_value * (qty : ℚ))
    else 0
  let exit_ts :=
    if execution.exit_bar_idx < bars.length then
      (bars.getD execution.exit_bar_idx default).ts
    else current_ts
  pure { ts_open := current_ts, ts_close := exit_ts, symbol := symbol,
         side := candidate.side, qty := qty, entry_price := entry_fill,
         exit_price := exit_fill, stop_price := candidate.stop,
         target_price := candidate.target, pnl := net_pnl, r_mult := r_mult,
         fees := total_costs, slippage := 0,
         exit_reason := execution.exit_reason, tags := candidate.tags }

/-- The candidate pipeline the engine drives (engine.py lines 82-111):
feature building, generation, scoring, ranking and rule filtering.
These stages are imported functions in the source; the engine theorems
hold for every choice of them, the Python ones included.  `F` is the
feature-row type; a feature table is a list of (timestamp, row). -/
structure EnginePipeline (F : Type) where
  build_features : List Bar → List (ℤ × F)
  gen : List (ℤ × F) → List TradeCandidate
  score : List TradeCandidate → List (ℤ × F) → List TradeCandidate
  rank : List TradeCandidate → List TradeCandidate
  rules : List TradeCandidate → List (ℤ × F) → ℤ → List TradeCandidate

/-- One iteration of the bar loop of `BacktestEngine.run` (engine.py
lines 75-189), threading the trade ledger and the `RiskLimits` state. -/
def engineBarStep {F : Type} (p : EnginePipeline F) (cfg_risk : RiskCfg)
    (bars : List Bar) (feats : List (ℤ × F)) (symbol : String)
    (i : ℕ) (current_ts : ℤ) (acc : List Trade × RiskLimitsState) :
    Except String (List Trade × RiskLimitsState) := do
  let (trades, limits) := acc
  let features_window := feats.take (i + 1)
  let candidates := p.gen features_window
  if candidates.isEmpty then pure (trades, limits) else
  let scored := p.score candidates features_window
  if scored.isEmpty then pure (trades, limits) else
  let ranked := p.rank scored
  if ranked.isEmpty then pure (trades, limits) else
  match p.rules ranked features_window current_ts with
  | [] => pure (trades, limits)
  | candidate :: _ =>
    let trade_date := engineTradeDate current_ts
    let rd ← size_position cfg_risk limits candidate symbol trade_date
    let (risk_decision, limits) := rd
    if ¬ risk_decision.allow then pure (trades, limits) else
    match simulate_execution bars candidate.entry candidate.stop candidate.target
        candidate.side i with
    | none => pure (trades, limits)
    | some execution => do
      let trade ← settleTrade symbol cfg_risk bars current_ts candidate
        risk_decision execution
      let limits := add_trade limits trade_date
      let limits := add_realized_r limits trade_date trade.r_mult
      pure (trades ++ [trade], limits)

/-- The bar loop `for i in range(100, len(df_features))`. -/
def engineLoop {F : Type} (p : EnginePipeline F) (cfg_risk : RiskCfg)
    (bars : List Bar) (feats : List (ℤ × F)) (symbol : String)
    (i : ℕ) (acc : List Trade × RiskLimitsState) :
    Except String (List Trade × RiskLimitsState) :=
  if h : i < feats.length then do
    let acc' ← engineBarStep p cfg_risk bars feats symbol i (feats[i]).1 acc
    engineLoop p cfg_risk bars feats symbol (i + 1) acc'
  else pure acc
termination_by feats.length - i

/-- What `BacktestEngine.run` returns, together with the final
`RiskLimits` state held by the engine's `RiskManager` (mutable
`self` state made explicit). -/
structure RunOutput where
  trades : List Trade
  metrics : Option Metrics
  limits : RiskLimitsState
  deriving Repr

/-- `jcq/backtest/engine.py::BacktestEngine.run`.  An empty bar frame
or an empty feature frame returns the empty result
`{"trades": …empty…, "metrics": {}}` (lines 64-71); otherwise the bar
loop runs from index 100.  `.error` models an uncaught Python
exception escaping `run`. -/
def runEngine {F : Type} (p : EnginePipeline F) (cfg_risk : RiskCfg)
    (bars : List Bar) (symbol : String) : Except String RunOutput :=
  if bars.isEmpty then
    .ok { trades := [], metrics := none, limits := initLimits }
  else
    let feats := p.build_features bars
    if feats.isEmpty then
      .ok { trades := [], metrics := none, limits := initLimits }
    else do
      let res ← engineLoop p cfg_risk bars feats symbol 100 ([], initLimits)
      pure { trades := res.1, metrics := calculate_metrics res.1, limits := res.2 }

/-
Monte Carlo (`jcq/sim/monte_carlo.py::run_monte_carlo`).  The source
draws bootstrap samples with `np.random.choice` from NumPy's *global*
generator; the function has no seed parameter.  The ambient generator
is modelled as explicit state `s : S` threaded through an abstract
index sampler `draw : S → ℕ → ℕ × S` (`draw s len` draws one index
`< len`); `np.random.choice(r, size=len(r), replace=True)` is `len r`
successive draws.  The `final_r_std`/`max_dd_std` outputs are omitted
(`np.std` takes an irrational square root); no examined property
mentions them.
-/

/-- Draw `count` successive indices below `len`. -/
def drawSeq {S : Type} (draw : S → ℕ → ℕ × S) (len : ℕ) :
    ℕ → S → List ℕ × S
  | 0, s => ([], s)
  | count + 1, s =>
    let (i, s') := draw s len
    let (rest, s'') := drawSeq draw len count s'
    (i :: rest, s'')

/-- `np.random.choice(r_stream, size=len(r_stream), replace=True)`. -/
def bootstrap_sample {S : Type} (draw : S → ℕ → ℕ × S) (r_stream : List ℚ)
    (s : S) : List ℚ × S :=
  let (idx, s') := drawSeq draw r_stream.length r_stream.length s
  (idx.map (fun i => r_stream.getD i 0), s')

/-- The `n_simulations` bootstrap samples, in draw order. -/
def mcSamples {S : Type} (draw : S → ℕ → ℕ × S) (r_stream : List ℚ) :
    ℕ → S → List (List ℚ) × S
  | 0, s => ([], s)
  | n + 1, s =>
    let (sample, s') := bootstrap_sample draw r_stream s
    let (rest, s'') := mcSamples draw r_stream n s'
    (sample :: rest, s'')

/-- The raw index streams behind `mcSamples`: what the ambient RNG
contributes to a `run_monte_carlo` call. -/
def indexTrace {S : Type} (draw : S → ℕ → ℕ × S) (len : ℕ) :
    ℕ → S → List (List ℕ) × S
  | 0, s => ([], s)
  | n + 1, s =>
    let (idx, s') := drawSeq draw len len s
    let (rest, s'') := indexTrace draw len n s'
    (idx :: rest, s'')

/-- `np.percentile` with the default linear interpolation. -/
def npPercentile (l : List ℚ) (q : ℚ) : ℚ :=
  let sorted := l.insertionSort (· ≤ ·)
  match sorted with
  | [] => 0
  | _ :: _ =>
    let n := sorted.length
    let h : ℚ := ((n - 1 : ℕ) : ℚ) * q / 100
    let lo : ℤ := ⌊h⌋
    let loN := lo.toNat
    let x0 := sorted.getD loN 0
    let x1 := sorted.getD (loN + 1) x0
    x0 + (h - (lo : ℚ)) * (x1 - x0)

/-- Max drawdown of one bootstrap sample (`monte_carlo.py` lines
44-47): minimum of `equity - running_max`. -/
def sampleMaxDD (sample : List ℚ) : ℚ :=
  let equity := cumsum sample
  listMinD (List.zipWith (· - ·) equity (runningMax equity)) 0

/-- The statistics dict of `run_monte_carlo` (std entries omitted,
see above).  `var`/`cvar` list one `(confidence_level, value)` pair
per requested level. -/
structure MCResult where
  final_r_mean : ℚ
  final_r_min : ℚ
  final_r_max : ℚ
  max_dd_mean : ℚ
  max_dd_min : ℚ
  max_dd_max : ℚ
  var : List (ℚ × ℚ)
  cvar : List (ℚ × ℚ)
  deriving DecidableEq, Repr

/-- `jcq/sim/monte_carlo.py::run_monte_carlo` over an explicit ambient
RNG state.  `none` is the empty dict returned for an empty trade
stream (line 27-28); the final generator state is returned alongside,
as the Python global generator keeps the advanced state. -/
def run_monte_carlo {S : Type} (draw : S → ℕ → ℕ × S) (r_stream : List ℚ)
    (n_simulations : ℕ) (confidence_levels : List ℚ) (s : S) :
    Option MCResult × S :=
  if r_stream.isEmpty then (none, s)
  else
    let (samples, s') := mcSamples draw r_stream n_simulations s
    let final_r_results := samples.map (fun sample => (cumsum sample).getLastD 0)
    let max_dd_results := samples.map sampleMaxDD
    (some
      { final_r_mean := listMean final_r_results
        final_r_min := listMinD final_r_results 0
        final_r_max := listMaxD final_r_results 0
        max_dd_mean := listMean max_dd_results
        max_dd_min := listMinD max_dd_results 0
        max_dd_max := listMaxD max_dd_results 0
        var := confidence_levels.map (fun cl =>
          (cl, npPercentile final_r_results ((1 - cl) * 100)))
        cvar := confidence_levels.map (fun cl =>
          let v := npPercentile final_r_results ((1 - cl) * 100)
          (cl, listMean (final_r_results.filter (fun x => decide (x ≤ v))))) },
     s')

/-- The property §8 of the spec claims of every generated candidate:
positive risk and reward:risk inside the configured band.  On the code,
only the VWAP family (tag `"vwap"`) enforces the upper bound. -/
def CandidateInBand (cfg : CandCfg) (c : Candidate) : Prop :=
  ∃ r w, c.risk_points = some r ∧ c.reward_points = some w ∧ 0 < r ∧
    cfg.min_rr ≤ w / r ∧ ("vwap" ∈ c.tags → w / r ≤ cfg.max_rr)

/-- Feature row with the close sitting on a wide opening range's low
and the VWAP far away: the opening-range family fires with
reward:risk = 200. -/
def c2row : FeatureRow :=
  { close := some (some 100), high := some 100, low := some 100,
    session_vwap := some (some 1000), atr_14 := some (some 1),
    opening_range_high := some (some 200), opening_range_low := some (some 100),
    prior_high := none, prior_low := none }

/-- The single candidate `generate_candidates` returns on `[c2row]`
under the default configuration. -/
def c2cand : Candidate :=
  { entry := some 100, stop := some (199/2), target := some 200,
    risk_points := some (1/2), reward_points := some 100,
    side := .long, tags := ["opening_range", "orl_retest"] }

/-- Feature row on which `generate_candidates` raises in Python:
`session_vwap` is absent (the VWAP block never assigns its local
`atr`), `atr_14` is a present column, and the close sits on the
opening-range low, so the opening-range stop expression reads the
unassigned `atr`. -/
def c6row : FeatureRow :=
  { close := some (some 100), high := some 100, low := some 100,
    session_vwap := none, atr_14 := some (some 5),
    opening_range_high := some (some 110), opening_range_low := some (some 100),
    prior_high := none, prior_low := none }

/-- A concrete pipeline instantiation with constant stages, used to
evaluate the engine at concrete inputs. -/
def trivPipeline : EnginePipeline Unit :=
  { build_features := fun bars => bars.map (fun b => (b.ts, ()))
    gen := fun _ => []
    score := fun c _ => c
    rank := fun c => c
    rules := fun c _ _ => c }

/-- A concrete ambient-generator model for the Monte Carlo theorems:
the state is a stream of pre-recorded naturals and one draw pops the
head modulo `len`. -/
def listDraw : List ℕ → ℕ → ℕ × List ℕ
  | x :: rest, len => (x % len, rest)
  | [], _ => (0, [])

/-- Concrete sizing inputs for the risk-manager witnesses: 5 points of
risk on NQ under the default configuration. -/
def cand5w : TradeCandidate :=
  { entry := 15000, stop := 14995, target := 15010, risk_points := 5,
    side := .long, tags := [] }

/-- The decision the default configuration produces for `cand5w`:
micro substitution to MNQ, 10 contracts, 12.50 estimated costs. -/
def dec5w : RiskDecision :=
  { allow := true, reason := none, qty := 10, risk_r := 1,
    costs_estimate := 25/2, symbol := some "MNQ" }

/-- `reset_daily initLimits 0`: the lazily initialized day-0 state. -/
def s5w : RiskLimitsState :=
  { daily_realized_r := [(0, 0)], daily_trades := [(0, 0)], open_risk_r := 0 }

/-- A concrete resolved execution (stop exit at 95 after a fill at
100), used by the settlement witnesses. -/
def exec3w : ExecResult :=
  { entry_fill := 100, exit_fill := 95, exit_bar_idx := 1, exit_reason := "stop" }

/-- The trade `settleTrade` builds from `cand5w`, `dec5w` and `exec3w`
on the run symbol NQ: PnL and costs are computed from the NQ contract
spec (point value 20, tick value 5) even though the decision carries
the substituted MNQ symbol and an MNQ-derived quantity. -/
def t10w : Trade :=
  { ts_open := 0, ts_close := 0, symbol := "NQ", side := .long, qty := 10,
    entry_price := 100, exit_price := 95, stop_price := 14995,
    target_price := 15010, pnl := -1060, r_mult := -53/50, fees := 60,
    slippage := 0, exit_reason := "stop", tags := [] }

/-- A second concrete generator model (counter state), used to witness
that only the drawn index streams matter. -/
def natDraw : ℕ → ℕ → ℕ × ℕ := fun s len => (s % len, s + 1)

/-- `run_monte_carlo` output for the stream `[0, 10]`, one simulation,
ambient stream drawing index 0 twice. -/
def mcA : MCResult :=
  { final_r_mean := 0, final_r_min := 0, final_r_max := 0,
    max_dd_mean := 0, max_dd_min := 0, max_dd_max := 0, var := [], cvar := [] }

/-- `run_monte_carlo` output for the stream `[0, 10]`, one simulation,
ambient stream drawing index 1 twice. -/
def mcB : MCResult :=
  { final_r_mean := 20, final_r_min := 20, final_r_max := 20,
    max_dd_mean := 0, max_dd_min := 0, max_dd_max := 0, var := [], cvar := [] }

/-! ## Theorems -/

theorem rr_lower_bound {min_rr : ℚ} (hm : 0 < min_rr) {reward risk : PF}
    (h : PF.ble (some min_rr) (rrOf reward risk) = true) :
    ∃ r w, risk = some r ∧ reward = some w ∧ 0 < r ∧ min_rr ≤ w / r := by
  cases risk with
  | none =>
    simp [rrOf, PF.blt, PF.ble] at h
    linarith
  | some r =>
    cases reward with
    | none =>
      by_cases hr : (0 : ℚ) < r
      · simp [rrOf, PF.blt, hr, PF.div, PF.ble] at h
      · simp [rrOf, PF.blt, hr, PF.ble] at h
        linarith
    | some w =>
      by_cases hr : (0 : ℚ) < r
      · refine ⟨r, w, rfl, rfl, hr, ?_⟩
        simpa [rrOf, PF.blt, hr, PF.div, PF.ble] using h
      · simp [rrOf, PF.blt, hr, PF.ble] at h
        linarith

theorem rr_band {min_rr max_rr : ℚ} (hm : 0 < min_rr) {reward risk : PF}
    (h : (PF.ble (some min_rr) (rrOf reward risk)
          && PF.ble (rrOf reward risk) (some max_rr)) = true) :
    ∃ r w, risk = some r ∧ reward = some w ∧ 0 < r ∧
      min_rr ≤ w / r ∧ w / r ≤ max_rr := by
  rw [Bool.and_eq_true] at h
  obtain ⟨r, w, hr, hw, hrpos, hlo⟩ := rr_lower_bound hm h.1
  refine ⟨r, w, hr, hw, hrpos, hlo, ?_⟩
  have h2 := h.2
  subst hr hw
  simpa [rrOf, PF.blt, hrpos, PF.div, PF.ble] using h2

theorem vwapLong_inBand {vwap atr cp : PF} {cfg : CandCfg} {k : ℚ} {c : Candidate}
    (hm : 0 < cfg.min_rr) (h : vwapLong vwap atr cp cfg k = some c) :
    CandidateInBand cfg c := by
  simp only [vwapLong] at h
  split at h
  · split at h
    case isTrue hband =>
      obtain ⟨r, w, hr, hw, hrpos, hlo, hhi⟩ := rr_band hm hband
      cases h
      exact ⟨r, w, hr, hw, hrpos, hlo, fun _ => hhi⟩
    case isFalse => exact absurd h (by simp)
  · exact absurd h (by simp)

theorem vwapShort_inBand {vwap atr cp : PF} {cfg : CandCfg} {k : ℚ} {c : Candidate}
    (hm : 0 < cfg.min_rr) (h : vwapShort vwap atr cp cfg k = some c) :
    CandidateInBand cfg c := by
  simp only [vwapShort] at h
  split at h
  · split at h
    case isTrue hband =>
      obtain ⟨r, w, hr, hw, hrpos, hlo, hhi⟩ := rr_band hm hband
      cases h
      exact ⟨r, w, hr, hw, hrpos, hlo, fun _ => hhi⟩
    case isFalse => exact absurd h (by simp)
  · exact absurd h (by simp)

theorem vwapFamily_inBand {latest : FeatureRow} {cp : PF} {cfg : CandCfg}
    {c : Candidate} (hm : 0 < cfg.min_rr)
    (h : c ∈ (vwapFamily latest cp cfg).1) : CandidateInBand cfg c := by
  by_cases hen : cfg.vwap_enabled
  · cases hv : latest.session_vwap with
    | none => simp [vwapFamily, hen, hv] at h
    | some vwap =>
      cases ha : latest.atr_14 with
      | none => simp [vwapFamily, hen, hv, ha] at h
      | some atr =>
        by_cases hns : vwap.isSome
        · simp only [vwapFamily, hen, hv, ha, hns, if_true, if_pos] at h
          rw [List.mem_flatMap] at h
          obtain ⟨k, _, hk⟩ := h
          rw [List.mem_append] at hk
          rcases hk with hk | hk
          · rw [Option.mem_toList, Option.mem_def] at hk
            exact vwapLong_inBand hm hk
          · rw [Option.mem_toList, Option.mem_def] at hk
            exact vwapShort_inBand hm hk
        · simp [vwapFamily, hen, hv, ha, hns] at h
  · simp [vwapFamily, hen] at h

theorem inBand_of_lower {cfg : CandCfg} {e s t risk reward : PF} {sd : Side}
    {tags : List String} (hm : 0 < cfg.min_rr)
    (hband : PF.ble (some cfg.min_rr) (rrOf reward risk) = true)
    (htags : "vwap" ∉ tags) :
    CandidateInBand cfg
      { entry := e, stop := s, target := t, risk_points := risk,
        reward_points := reward, side := sd, tags := tags } := by
  obtain ⟨r, w, hr, hw, hrpos, hlo⟩ := rr_lower_bound hm hband
  exact ⟨r, w, hr, hw, hrpos, hlo, fun hmem => absurd hmem htags⟩

theorem orLong_inBand {orh orl cp : PF} {cfg : CandCfg} {b : Bool} {av : Option PF}
    {tol : ℚ} {l : List Candidate} {c : Candidate} (hm : 0 < cfg.min_rr)
    (h : orLong orh orl cp cfg b av tol = .ok l) (hc : c ∈ l) :
    CandidateInBand cfg c := by
  simp only [orLong] at h
  split at h
  · cases b with
    | false =>
      simp only [Bool.false_eq_true, if_false, bind, Except.bind, pure, Except.pure] at h
      split at h
      case isTrue hband =>
        cases h
        rw [List.mem_singleton] at hc
        subst hc
        exact inBand_of_lower hm hband (by decide)
      case isFalse => cases h; simp at hc
    | true =>
      cases av with
      | none =>
        simp [bind, Except.bind, throw, throwThe, MonadExceptOf.throw] at h
      | some a =>
        simp only [if_true, bind, Except.bind, pure, Except.pure] at h
        split at h
        case isTrue hband =>
          cases h
          rw [List.mem_singleton] at hc
          subst hc
          exact inBand_of_lower hm hband (by decide)
        case isFalse => cases h; simp at hc
  · cases h; simp at hc

theorem orShort_inBand {orh orl cp : PF} {cfg : CandCfg} {b : Bool} {av : Option PF}
    {tol : ℚ} {l : List Candidate} {c : Candidate} (hm : 0 < cfg.min_rr)
    (h : orShort orh orl cp cfg b av tol = .ok l) (hc : c ∈ l) :
    CandidateInBand cfg c := by
  simp only [orShort] at h
  split at h
  · cases b with
    | false =>
      simp only [Bool.false_eq_true, if_false, bind, Except.bind, pure, Except.pure] at h
      split at h
      case isTrue hband =>
        cases h
        rw [List.mem_singleton] at hc
        subst hc
        exact inBand_of_lower hm hband (by decide)
      case isFalse => cases h; simp at hc
    | true =>
      cases av with
      | none =>
        simp [bind, Except.bind, throw, throwThe, MonadExceptOf.throw] at h
      | some a =>
        simp only [if_true, bind, Except.bind, pure, Except.pure] at h
        split at h
        case isTrue hband =>
          cases h
          rw [List.mem_singleton] at hc
          subst hc
          exact inBand_of_lower hm hband (by decide)
        case isFalse => cases h; simp at hc
  · cases h; simp at hc

theorem orFamily_inBand {latest : FeatureRow} {cp : PF} {cfg : CandCfg}
    {av : Option PF} {l : List Candidate} {c : Candidate} (hm : 0 < cfg.min_rr)
    (h : orFamily latest cp cfg av = .ok l) (hc : c ∈ l) :
    CandidateInBand cfg c := by
  by_cases hen : cfg.opening_range_enabled
  · cases hh : latest.opening_range_high with
    | none =>
      simp only [orFamily, hen, if_true, hh, pure, Except.pure] at h
      cases h
      simp at hc
    | some orh =>
      cases hlo : latest.opening_range_low with
      | none =>
        simp only [orFamily, hen, if_true, hh, hlo, pure, Except.pure] at h
        cases h
        simp at hc
      | some orl =>
        simp only [orFamily, hen, if_true, hh, hlo] at h
        split at h
        · cases hl : orLong orh orl cp cfg latest.atr_14.isSome av
              (cfg.opening_range_tolerance_ticks * (1/4)) with
          | error e => rw [hl] at h; simp [bind, Except.bind] at h
          | ok longs =>
            cases hs : orShort orh orl cp cfg latest.atr_14.isSome av
                (cfg.opening_range_tolerance_ticks * (1/4)) with
            | error e => rw [hl, hs] at h; simp [bind, Except.bind] at h
            | ok shorts =>
              rw [hl, hs] at h
              simp only [bind, Except.bind, pure, Except.pure] at h
              cases h
              rw [List.mem_append] at hc
              rcases hc with hc | hc
              · exact orLong_inBand hm hl hc
              · exact orShort_inBand hm hs hc
        · simp only [pure, Except.pure] at h
          cases h
          simp at hc
  · simp only [orFamily, hen, Bool.false_eq_true, if_false, pure, Except.pure] at h
    cases h
    simp at hc

theorem psLong_inBand {ph pl cp atr : PF} {cfg : CandCfg} {tol : ℚ} {c : Candidate}
    (hm : 0 < cfg.min_rr) (h : c ∈ psLong ph pl cp atr cfg tol) :
    CandidateInBand cfg c := by
  simp only [psLong] at h
  split at h
  · split at h
    case isTrue hband =>
      rw [List.mem_singleton] at h
      subst h
      exact inBand_of_lower hm hband (by decide)
    case isFalse => simp at h
  · simp at h

theorem psShort_inBand {ph pl cp atr : PF} {cfg : CandCfg} {tol : ℚ} {c : Candidate}
    (hm : 0 < cfg.min_rr) (h : c ∈ psShort ph pl cp atr cfg tol) :
    CandidateInBand cfg c := by
  simp only [psShort] at h
  split at h
  · split at h
    case isTrue hband =>
      rw [List.mem_singleton] at h
      subst h
      exact inBand_of_lower hm hband (by decide)
    case isFalse => simp at h
  · simp at h

theorem psFamily_inBand {latest : FeatureRow} {cp : PF} {cfg : CandCfg}
    {c : Candidate} (hm : 0 < cfg.min_rr) (h : c ∈ psFamily latest cp cfg) :
    CandidateInBand cfg c := by
  simp only [psFamily] at h
  split at h
  · split at h
    · split at h
      · rw [List.mem_append] at h
        rcases h with h | h
        · exact psLong_inBand hm h
        · exact psShort_inBand hm h
      · simp at h
    · simp at h
  · simp at h

theorem swingShortAt_inBand {recent : List FeatureRow} {lookback : ℕ} {cp atr : PF}
    {cfg : CandCfg} {i : ℕ} {c : Candidate} (hm : 0 < cfg.min_rr)
    (h : swingShortAt recent lookback cp atr cfg i = some c) :
    CandidateInBand cfg c := by
  simp only [swingShortAt] at h
  split at h
  · split at h
    · split at h
      case isTrue hband =>
        cases h
        exact inBand_of_lower hm hband (by decide)
      case isFalse => exact absurd h (by simp)
    · exact absurd h (by simp)
  · exact absurd h (by simp)

theorem swingLongAt_inBand {recent : List FeatureRow} {lookback : ℕ} {cp atr : PF}
    {cfg : CandCfg} {i : ℕ} {c : Candidate} (hm : 0 < cfg.min_rr)
    (h : swingLongAt recent lookback cp atr cfg i = some c) :
    CandidateInBand cfg c := by
  simp only [swingLongAt] at h
  split at h
  · split at h
    · split at h
      case isTrue hband =>
        cases h
        exact inBand_of_lower hm hband (by decide)
      case isFalse => exact absurd h (by simp)
    · exact absurd h (by simp)
  · exact absurd h (by simp)

theorem swingFamily_inBand {rows : List FeatureRow} {latest : FeatureRow} {cp : PF}
    {cfg : CandCfg} {c : Candidate} (hm : 0 < cfg.min_rr)
    (h : c ∈ swingFamily rows latest cp cfg) : CandidateInBand cfg c := by
  simp only [swingFamily] at h
  split at h
  · split at h
    · split at h
      · rw [List.mem_append] at h
        rcases h with h | h <;> rw [List.mem_filterMap] at h
        · obtain ⟨i, _, hi⟩ := h
          exact swingShortAt_inBand hm hi
        · obtain ⟨i, _, hi⟩ := h
          exact swingLongAt_inBand hm hi
      · simp at h
    · simp at h
  · simp at h

/-- Claim C2 (amended).  When `min_rr` is configured positive (the default
is 1.5), every candidate returned by `generate_candidates` has
`risk_points > 0` (a finite, strictly positive float) and reward:risk
`reward_points / risk_points ≥ min_rr`; candidates of the VWAP family
(tagged `"vwap"`) additionally satisfy `reward_points / risk_points ≤
max_rr`.  The opening-range, prior-session and swing families enforce
only the lower bound, so the claim's two-sided band does not hold for
them (see the counterexample). -/
theorem generate_candidates_band {rows : List FeatureRow} {cfg : CandCfg}
    {cands : List Candidate} (hm : 0 < cfg.min_rr)
    (h : generate_candidates rows cfg = .ok cands) :
    ∀ c ∈ cands, CandidateInBand cfg c := by
  intro c hc
  simp only [generate_candidates] at h
  split at h
  · cases h
    simp at hc
  · rename_i latest heq
    split at h
    · cases h
      simp at hc
    · cases ho : orFamily latest (latest.close.getD (some 0)) cfg
          (vwapFamily latest (latest.close.getD (some 0)) cfg).2 with
      | error e =>
        rw [ho] at h
        simp [bind, Except.bind] at h
      | ok orCands =>
        rw [ho] at h
        simp only [bind, Except.bind, pure, Except.pure] at h
        cases h
        simp only [List.mem_append] at hc
        rcases hc with ((hc | hc) | hc) | hc
        · exact vwapFamily_inBand hm hc
        · exact orFamily_inBand hm ho hc
        · exact psFamily_inBand hm hc
        · exact swingFamily_inBand hm hc

/-- Claim C2, witness: the band theorem applied to the concrete run on
`[c2row]` under the default configuration. -/
theorem generate_candidates_band_witness :
    0 < ({} : CandCfg).min_rr ∧ CandidateInBand {} c2cand := by
  have h : generate_candidates [c2row] {} = .ok [c2cand] := by
    norm_num [generate_candidates, c2row, c2cand, vwapFamily, vwapLong, vwapShort,
      orFamily, orLong, orShort, psFamily, psLong, psShort, swingFamily, rrOf,
      PF.add, PF.sub, PF.mul, PF.div, PF.pabs, PF.ble, PF.blt, PF.beq,
      bind, Except.bind, pure, Except.pure,
      abs_of_nonneg (show (0:ℚ) ≤ 1/2 by norm_num)]
  exact ⟨by norm_num, generate_candidates_band (by norm_num) h c2cand (by simp)⟩

/-- Claim C2, counterexample: on `[c2row]` under the default
configuration (`min_rr = 1.5`, `max_rr = 5`) the opening-range family
returns a candidate with reward:risk `100 / (1/2) = 200`, far above
`max_rr`, so the claim that every returned candidate's ratio lies
inside `[min_rr, max_rr]` is false. -/
theorem generate_candidates_band_counterexample :
    generate_candidates [c2row] {} = .ok [c2cand] ∧
    c2cand.reward_points = some 100 ∧ c2cand.risk_points = some (1/2) ∧
    ¬ ((100 : ℚ) / (1/2) ≤ ({} : CandCfg).max_rr) := by
  refine ⟨?_, rfl, rfl, by norm_num⟩
  norm_num [generate_candidates, c2row, c2cand, vwapFamily, vwapLong, vwapShort,
    orFamily, orLong, orShort, psFamily, psLong, psShort, swingFamily, rrOf,
    PF.add, PF.sub, PF.mul, PF.div, PF.pabs, PF.ble, PF.blt, PF.beq,
    bind, Except.bind, pure, Except.pure,
    abs_of_nonneg (show (0:ℚ) ≤ 1/2 by norm_num)]

/-- Claim C6: on `[c6row]` the feature history has `session_vwap` absent
(VWAP undefined) while `atr_14` is a present column and the close sits
on the opening-range low; `generate_candidates` then evaluates
`orl - atr * 0.5` with the local `atr` never assigned and raises
(`UnboundLocalError`, a `NameError` subclass) instead of silently
producing no candidates for that family. -/
theorem generate_candidates_nameerror :
    generate_candidates [c6row] {} = .error "NameError: atr is not defined" := by
  norm_num [generate_candidates, c6row, vwapFamily, orFamily, orLong, orShort,
    psFamily, swingFamily, rrOf, PF.add, PF.sub, PF.mul, PF.div, PF.pabs,
    PF.ble, PF.blt, PF.beq, bind, Except.bind, pure, Except.pure,
    throw, throwThe, MonadExceptOf.throw]

/-- Claim C1, counterexample: minute 1410 of day 0 is 23:30 UTC, i.e.
18:30 America/New_York standard time (offset −300 minutes).
`session_day` maps it to the next session day 1 (local hour ≥ 18), but
the engine's key `current_ts.date()` is its UTC calendar day 0. -/
theorem engine_key_counterexample :
    engineTradeDate 1410 ≠ session_day (-300) 1410 := by
  norm_num [engineTradeDate, session_day, sessionLocalDate, sessionLocalHour]

/-- Claim C1 (amended).  `BacktestEngine.run` keys the risk counters by
`current_ts.date()` — the UTC calendar day (`engineTradeDate`) — and
never calls `session_day`.  Under the −300-minute (Eastern standard
time) offset the two keys agree exactly when the market-local hour is
not 18; for bars with local hour 18 (18:00-18:59 ET) the engine keys
the bar to the session day minus one, contradicting the claimed
18:00→17:00 session keying. -/
theorem engine_key_vs_session_day (ts : ℤ) :
    engineTradeDate ts = session_day (-300) ts ↔
      sessionLocalHour (-300) ts ≠ 18 := by
  unfold engineTradeDate session_day sessionLocalDate sessionLocalHour
  split <;> constructor <;> intro h <;> omega

theorem exitScan_entry_fill {ef stop target : ℚ} {side : Side} :
    ∀ {i : ℕ} {l : List Bar} {r : ExecResult},
      exitScan ef stop target side i l = some r → r.entry_fill = ef := by
  intro i l
  induction l generalizing i with
  | nil =>
    intro r h
    simp [exitScan] at h
  | cons bar rest ih =>
    intro r h
    rw [exitScan] at h
    split at h
    · cases h
      rfl
    · split at h
      · cases h
        rfl
      · exact ih h

theorem exitScan_stop_wins {ef stop target : ℚ} {side : Side} {bars : List Bar} :
    ∀ {i : ℕ} {l : List Bar} {r : ExecResult}, bars.drop i = l →
      exitScan ef stop target side i l = some r →
      stopCond side (bars.getD r.exit_bar_idx default) stop = true →
      r.exit_reason = "stop" ∧ r.exit_fill = stop := by
  intro i l
  induction l generalizing i with
  | nil =>
    intro r _ h _
    simp [exitScan] at h
  | cons bar rest ih =>
    intro r hdrop h hs
    have hi : i < bars.length := by
      have hlen := congrArg List.length hdrop
      simp [List.length_drop] at hlen
      omega
    have hcons := List.drop_eq_getElem_cons hi
    rw [hdrop] at hcons
    obtain ⟨hbar, hrest'⟩ := List.cons_eq_cons.mp hcons
    have hrest : bars.drop (i + 1) = rest := hrest'.symm
    rw [exitScan] at h
    split at h
    · cases h
      exact ⟨rfl, rfl⟩
    · split at h
      · cases h
        rename_i hstop _
        rw [List.getD_eq_getElem _ _ hi] at hs
        rw [hbar] at hstop
        exact absurd hs hstop
      · exact ih hrest h hs

/-- Claim C3: whenever `simulate_execution` resolves the bracket, if the
bar it exits on satisfies both the stop condition (`low ≤ stop` long /
`high ≥ stop` short) and the target condition (`high ≥ target` long /
`low ≤ target` short), the recorded `exit_reason` is `"stop"` and the
exit fill is exactly the stop price: the exit loop checks the stop
before the target on every bar. -/
theorem simulate_execution_stop_priority
    {bars : List Bar} {entry stop target : ℚ} {side : Side} {idx : ℕ}
    {r : ExecResult}
    (h : simulate_execution bars entry stop target side idx = some r)
    (hs : stopCond side (bars.getD r.exit_bar_idx default) stop = true)
    (ht : targetCond side (bars.getD r.exit_bar_idx default) target = true) :
    r.exit_reason = "stop" ∧ r.exit_fill = stop := by
  have _ := ht
  unfold simulate_execution at h
  split at h
  · cases side with
    | long =>
      simp only at h
      split at h
      · exact exitScan_stop_wins rfl h hs
      · simp at h
    | short =>
      simp only at h
      split at h
      · exact exitScan_stop_wins rfl h hs
      · simp at h
  · simp at h

/-- Claim C3, witness: a long bracket whose second bar touches both the
stop (low 90 ≤ 95) and the target (high 120 ≥ 110); the recorded exit
is the stop at the stop price. -/
theorem simulate_execution_stop_priority_witness :
    ({ entry_fill := 100, exit_fill := 95, exit_bar_idx := 1,
       exit_reason := "stop" } : ExecResult).exit_reason = "stop" ∧
    ({ entry_fill := 100, exit_fill := 95, exit_bar_idx := 1,
       exit_reason := "stop" } : ExecResult).exit_fill = 95 := by
  have h : simulate_execution
      [{ ts := 0, opn := 100, high := 101, low := 99, close := 100 },
       { ts := 1, opn := 96, high := 120, low := 90, close := 100 }]
      100 95 110 .long 0 =
      some { entry_fill := 100, exit_fill := 95, exit_bar_idx := 1,
             exit_reason := "stop" } := by decide
  exact simulate_execution_stop_priority h (by decide) (by decide)

/-- Claim C4: the entry order is examined against the entry bar only — it
fills iff the entry price lies within `[low, high]` of that bar
(otherwise `simulate_execution` returns `none` whatever the later bars
hold), and the fill price is the more adverse of entry price and bar
open: `max` for a long (so fill ≥ entry), `min` for a short (so fill ≤
entry). -/
theorem simulate_execution_entry
    {bars : List Bar} {entry stop target : ℚ} {side : Side} {idx : ℕ}
    (hidx : idx < bars.length) :
    (¬ (bars[idx].low ≤ entry ∧ entry ≤ bars[idx].high) →
      simulate_execution bars entry stop target side idx = none) ∧
    ∀ r, simulate_execution bars entry stop target side idx = some r →
      (bars[idx].low ≤ entry ∧ entry ≤ bars[idx].high) ∧
      r.entry_fill = (match side with
        | .long => max entry bars[idx].opn
        | .short => min entry bars[idx].opn) ∧
      (side = .long → entry ≤ r.entry_fill) ∧
      (side = .short → r.entry_fill ≤ entry) := by
  constructor
  · intro hrange
    unfold simulate_execution
    rw [dif_pos hidx]
    cases side <;> simp only <;> rw [if_neg hrange]
  · intro r h
    unfold simulate_execution at h
    rw [dif_pos hidx] at h
    cases side with
    | long =>
      simp only at h
      split at h
      case isTrue hin =>
        have hef := exitScan_entry_fill h
        exact ⟨hin, hef, fun _ => hef ▸ le_max_left _ _, nofun⟩
      case isFalse => simp at h
    | short =>
      simp only at h
      split at h
      case isTrue hin =>
        have hef := exitScan_entry_fill h
        exact ⟨hin, hef, nofun, fun _ => hef ▸ min_le_left _ _⟩
      case isFalse => simp at h

/-- Claim C4, witness: the entry theorem applied to the concrete long
bracket of the C3 witness — the in-range conditions hold and the fill
`max(100, open 100) = 100` is weakly worse than the entry 100. -/
theorem simulate_execution_entry_witness :
    ((99 : ℚ) ≤ 100 ∧ (100 : ℚ) ≤ 101) ∧ (100 : ℚ) ≤ 100 := by
  have h : simulate_execution
      [{ ts := 0, opn := 100, high := 101, low := 99, close := 100 },
       { ts := 1, opn := 96, high := 120, low := 90, close := 100 }]
      100 95 110 .long 0 =
      some { entry_fill := 100, exit_fill := 95, exit_bar_idx := 1,
             exit_reason := "stop" } := by decide
  have hall := (simulate_execution_entry (show (0:ℕ) <
    ([{ ts := 0, opn := 100, high := 101, low := 99, close := 100 },
       { ts := 1, opn := 96, high := 120, low := 90, close := 100 }] :
       List Bar).length by norm_num)).2 _ h
  refine ⟨by simpa using hall.1, ?_⟩
  have hfill := hall.2.2.1 rfl
  exact hfill

theorem lookup_cons_getD {α : Type} (z : α) {l : List (ℤ × α)} {d d' : ℤ}
    (hnone : l.lookup d = none) :
    (((d, z) :: l).lookup d').getD z = (l.lookup d').getD z := by
  by_cases hdd : d' = d
  · subst hdd
    simp [List.lookup, hnone]
  · have hbeq : (d' == d) = false := beq_eq_false_iff_ne.mpr hdd
    simp [List.lookup, hbeq]

theorem reset_daily_open (s : RiskLimitsState) (d : ℤ) :
    (reset_daily s d).open_risk_r = s.open_risk_r := rfl

theorem reset_daily_realizedR (s : RiskLimitsState) (d d' : ℤ) :
    realizedR (reset_daily s d) d' = realizedR s d' := by
  unfold realizedR reset_daily
  dsimp only
  split
  · rfl
  · rename_i hnone
    rw [Option.not_isSome_iff_eq_none] at hnone
    exact lookup_cons_getD 0 hnone

theorem reset_daily_tradeCount (s : RiskLimitsState) (d d' : ℤ) :
    tradeCount (reset_daily s d) d' = tradeCount s d' := by
  unfold tradeCount reset_daily
  dsimp only
  split
  · rfl
  · rename_i hnone
    rw [Option.not_isSome_iff_eq_none] at hnone
    exact lookup_cons_getD 0 hnone

theorem reset_daily_mem_r (s : RiskLimitsState) (d : ℤ) :
    ((reset_daily s d).daily_realized_r.lookup d).isSome = true := by
  unfold reset_daily
  dsimp only
  split
  · assumption
  · simp [List.lookup]

theorem reset_daily_mem_t (s : RiskLimitsState) (d : ℤ) :
    ((reset_daily s d).daily_trades.lookup d).isSome = true := by
  unfold reset_daily
  dsimp only
  split
  · assumption
  · simp [List.lookup]

theorem reset_daily_of_mem (s : RiskLimitsState) (d : ℤ)
    (h1 : (s.daily_realized_r.lookup d).isSome = true)
    (h2 : (s.daily_trades.lookup d).isSome = true) :
    reset_daily s d = s := by
  unfold reset_daily
  rw [if_pos h1, if_pos h2]

theorem reset_daily_idem (s : RiskLimitsState) (d : ℤ) :
    reset_daily (reset_daily s d) d = reset_daily s d :=
  reset_daily_of_mem _ _ (reset_daily_mem_r s d) (reset_daily_mem_t s d)

theorem check_daily_max_r_eq (cfg : RiskCfg) (s : RiskLimitsState) (d : ℤ) :
    check_daily_max_r cfg s d =
      (reset_daily s d,
       if realizedR s d ≤ -cfg.daily_max_r then
         (false, some (RejectReason.daily_max_r (realizedR s d) cfg.daily_max_r))
       else (true, (none : Option RejectReason))) := by
  unfold check_daily_max_r
  dsimp only
  rw [reset_daily_realizedR]
  split <;> rfl

theorem check_max_trades_eq (cfg : RiskCfg) (s : RiskLimitsState) (d : ℤ) :
    check_max_trades cfg s d =
      (reset_daily s d,
       if tradeCount s d ≥ cfg.max_trades_day then
         (false, some (RejectReason.max_trades (tradeCount s d) cfg.max_trades_day))
       else (true, (none : Option RejectReason))) := by
  unfold check_max_trades
  dsimp only
  rw [reset_daily_tradeCount]
  split <;> rfl

theorem size_position_eq (cfg : RiskCfg) (s : RiskLimitsState)
    (cand : TradeCandidate) (sym : String) (d : ℤ) :
    size_position cfg s cand sym d =
      if cand.risk_points ≤ 0 then
        .ok ({ allow := false, reason := some .invalid_risk_points, qty := 0,
               risk_r := 0, costs_estimate := 0, symbol := none }, s)
      else
        match get_contract_spec sym with
        | .error e => .error e
        | .ok spec =>
          if ⌊cfg.dollars_per_r * 1 / (cand.risk_points * spec.point_value)⌋ ≤ 0 then
            .ok ({ allow := false, reason := some .position_too_small, qty := 0,
                   risk_r := 0, costs_estimate := 0, symbol := none }, s)
          else
            let t :=
              if cfg.prefer_micro ∧ sym = "NQ" then
                if ⌊cfg.dollars_per_r * 1 / (cand.risk_points * mnqSpec.point_value)⌋ ≥ 1 then
                  ("MNQ", mnqSpec,
                   ⌊cfg.dollars_per_r * 1 / (cand.risk_points * mnqSpec.point_value)⌋)
                else (sym, spec, ⌊cfg.dollars_per_r * 1 / (cand.risk_points * spec.point_value)⌋)
              else (sym, spec, ⌊cfg.dollars_per_r * 1 / (cand.risk_points * spec.point_value)⌋)
            if realizedR s d ≤ -cfg.daily_max_r then
              .ok ({ allow := false,
                     reason := some (.daily_max_r (realizedR s d) cfg.daily_max_r),
                     qty := t.2.2, risk_r := 1, costs_estimate := 0, symbol := none },
                   reset_daily s d)
            else if tradeCount s d ≥ cfg.max_trades_day then
              .ok ({ allow := false,
                     reason := some (.max_trades (tradeCount s d) cfg.max_trades_day),
                     qty := t.2.2, risk_r := 1, costs_estimate := 0, symbol := none },
                   reset_daily s d)
            else if s.open_risk_r + 1 > cfg.max_open_risk_r then
              .ok ({ allow := false,
                     reason := some (.max_open_risk (s.open_risk_r + 1) cfg.max_open_risk_r),
                     qty := t.2.2, risk_r := 1, costs_estimate := 0, symbol := none },
                   reset_daily s d)
            else
              .ok ({ allow := true, reason := none, qty := t.2.2, risk_r := 1,
                     costs_estimate :=
                       cfg.slippage_ticks_per_side * t.2.1.tick_value * t.2.2
                         + cfg.fees_per_contract * t.2.2
                             * (if cfg.round_trip_fees then 2 else 1),
                     symbol := some t.1 }, reset_daily s d) := by
  unfold size_position
  cases hspec : get_contract_spec sym with
  | error e =>
    try dsimp only
    split
    · rfl
    · simp only [bind, Except.bind]
  | ok spec =>
    try dsimp only
    split
    · rfl
    · simp only [bind, Except.bind]
      try dsimp only
      split
      · rfl
      · generalize
          (if cfg.prefer_micro ∧ sym = "NQ" then
            if ⌊cfg.dollars_per_r * 1 / (cand.risk_points * mnqSpec.point_value)⌋ ≥ 1 then
              ("MNQ", mnqSpec,
               ⌊cfg.dollars_per_r * 1 / (cand.risk_points * mnqSpec.point_value)⌋)
            else (sym, spec, ⌊cfg.dollars_per_r * 1 / (cand.risk_points * spec.point_value)⌋)
          else (sym, spec, ⌊cfg.dollars_per_r * 1 / (cand.risk_points * spec.point_value)⌋)) = t
        obtain ⟨sym2, spec2, ct2⟩ := t
        try dsimp only
        rw [check_daily_max_r_eq]
        by_cases hc1 : realizedR s d ≤ -cfg.daily_max_r
        · rw [if_pos hc1]
          simp [hc1]
        · rw [if_neg hc1]
          rw [check_max_trades_eq, reset_daily_tradeCount, reset_daily_idem]
          by_cases hc2 : tradeCount s d ≥ cfg.max_trades_day
          · rw [if_pos hc2]
            simp [hc1, hc2]
          · rw [if_neg hc2]
            unfold check_max_open_risk
            rw [reset_daily_open]
            by_cases hc3 : s.open_risk_r + 1 > cfg.max_open_risk_r
            · rw [if_pos hc3]
              simp [hc1, hc2, hc3]
            · rw [if_neg hc3]
              simp [hc1, hc2, hc3]

/-- Claim C5: `RiskManager.size_position` is a pure function of the
limits state and its inputs, up to the lazy zero-initialization of the
day's entries: a call returning a decision leaves every daily
realized-R counter value, every daily trade-count value and the
open-risk total unchanged (in particular a rejected candidate never
alters any counter), and an immediately repeated call with the
identical candidate, symbol and trade date returns the identical
decision and the identical state. -/
theorem size_position_pure {cfg : RiskCfg} {s : RiskLimitsState}
    {cand : TradeCandidate} {sym : String} {d : ℤ}
    {dec : RiskDecision} {s' : RiskLimitsState}
    (h : size_position cfg s cand sym d = .ok (dec, s')) :
    size_position cfg s' cand sym d = .ok (dec, s') ∧
    (∀ d', realizedR s' d' = realizedR s d') ∧
    (∀ d', tradeCount s' d' = tradeCount s d') ∧
    s'.open_risk_r = s.open_risk_r := by
  rw [size_position_eq] at h
  rw [size_position_eq]
  split at h
  · rename_i hrp
    cases h
    rw [if_pos hrp]
    exact ⟨rfl, fun _ => rfl, fun _ => rfl, rfl⟩
  · rename_i hrp
    rw [if_neg hrp]
    cases hspec : get_contract_spec sym with
    | error e =>
      rw [hspec] at h
      simp at h
    | ok spec =>
      rw [hspec] at h
      dsimp only at h ⊢
      split at h
      · rename_i hct
        cases h
        rw [if_pos hct]
        exact ⟨rfl, fun _ => rfl, fun _ => rfl, rfl⟩
      · rename_i hct
        rw [if_neg hct]
        try dsimp only at h ⊢
        by_cases hc1 : realizedR s d ≤ -cfg.daily_max_r
        · rw [if_pos hc1] at h
          cases h
          refine ⟨?_, fun d' => reset_daily_realizedR s d d',
            fun d' => reset_daily_tradeCount s d d', reset_daily_open s d⟩
          rw [reset_daily_realizedR, if_pos hc1, reset_daily_idem]
        · rw [if_neg hc1] at h
          by_cases hc2 : tradeCount s d ≥ cfg.max_trades_day
          · rw [if_pos hc2] at h
            cases h
            refine ⟨?_, fun d' => reset_daily_realizedR s d d',
              fun d' => reset_daily_tradeCount s d d', reset_daily_open s d⟩
            rw [reset_daily_realizedR, if_neg hc1, reset_daily_tradeCount,
              if_pos hc2, reset_daily_idem]
          · rw [if_neg hc2] at h
            by_cases hc3 : s.open_risk_r + 1 > cfg.max_open_risk_r
            · rw [if_pos hc3] at h
              cases h
              refine ⟨?_, fun d' => reset_daily_realizedR s d d',
                fun d' => reset_daily_tradeCount s d d', reset_daily_open s d⟩
              rw [reset_daily_realizedR, if_neg hc1, reset_daily_tradeCount,
                if_neg hc2, reset_daily_open, if_pos hc3, reset_daily_idem]
            · rw [if_neg hc3] at h
              cases h
              refine ⟨?_, fun d' => reset_daily_realizedR s d d',
                fun d' => reset_daily_tradeCount s d d', reset_daily_open s d⟩
              rw [reset_daily_realizedR, if_neg hc1, reset_daily_tradeCount,
                if_neg hc2, reset_daily_open, if_neg hc3, reset_daily_idem]

/-- Claim C5, witness: the purity theorem applied to a concrete accepted
sizing call (NQ candidate with 5 risk points, default configuration,
fresh limits, day 0). -/
theorem size_position_pure_witness :
    (∀ d', realizedR s5w d' = realizedR initLimits d') ∧
    s5w.open_risk_r = initLimits.open_risk_r ∧
    size_position {} s5w cand5w "NQ" 0 = .ok (dec5w, s5w) := by
  have h : size_position {} initLimits cand5w "NQ" 0 = .ok (dec5w, s5w) := by
    rw [size_position_eq]
    norm_num [cand5w, dec5w, s5w, get_contract_spec, nqSpec, mnqSpec, initLimits,
      realizedR, tradeCount, reset_daily, List.lookup]
  have hp := size_position_pure h
  exact ⟨hp.2.1, hp.2.2.2, hp.1⟩

/-- Claim C7, counterexample: on an empty bar series `BacktestEngine.run`
returns the normal result `{"trades": empty, "metrics": {}}` —
it does not fail and surfaces no reason (a closed evaluation at a
concrete pipeline; `.error` would model an exception). -/
theorem engine_empty_counterexample :
    runEngine trivPipeline {} ([] : List Bar) "NQ" =
      .ok { trades := [], metrics := none, limits := initLimits } := rfl

/-- Claim C7 (amended).  For every pipeline, configuration and symbol,
running the engine on an empty bar series returns `.ok` with an empty
trade ledger, the empty metrics dict and untouched limits — the run is
silently successful rather than failed with a descriptive reason
(engine.py lines 64-65). -/
theorem engine_empty_returns_ok {F : Type} (p : EnginePipeline F)
    (cfg : RiskCfg) (sym : String) :
    runEngine p cfg ([] : List Bar) sym =
      .ok { trades := [], metrics := none, limits := initLimits } := rfl

theorem size_position_ok_state {cfg : RiskCfg} {s : RiskLimitsState}
    {cand : TradeCandidate} {sym : String} {d : ℤ} {dec : RiskDecision}
    {s' : RiskLimitsState}
    (h : size_position cfg s cand sym d = .ok (dec, s')) :
    s' = s ∨ s' = reset_daily s d := by
  rw [size_position_eq] at h
  split at h
  · cases h
    exact .inl rfl
  · cases hspec : get_contract_spec sym with
    | error e =>
      rw [hspec] at h
      simp at h
    | ok spec =>
      rw [hspec] at h
      dsimp only at h
      split at h
      · cases h
        exact .inl rfl
      · split at h
        · cases h
          exact .inr rfl
        · split at h
          · cases h
            exact .inr rfl
          · split at h
            · cases h
              exact .inr rfl
            · cases h
              exact .inr rfl

theorem size_position_open_risk {cfg : RiskCfg} {s : RiskLimitsState}
    {cand : TradeCandidate} {sym : String} {d : ℤ} {dec : RiskDecision}
    {s' : RiskLimitsState}
    (h : size_position cfg s cand sym d = .ok (dec, s')) :
    s'.open_risk_r = s.open_risk_r := by
  rcases size_position_ok_state h with rfl | rfl
  · rfl
  · exact reset_daily_open s d

theorem add_trade_open (s : RiskLimitsState) (d : ℤ) :
    (add_trade s d).open_risk_r = s.open_risk_r := rfl

theorem add_realized_r_open (s : RiskLimitsState) (d : ℤ) (r : ℚ) :
    (add_realized_r s d r).open_risk_r = s.open_risk_r := rfl

theorem engineBarStep_open {F : Type} {p : EnginePipeline F} {cfg : RiskCfg}
    {bars : List Bar} {feats : List (ℤ × F)} {sym : String} {i : ℕ} {ts : ℤ}
    {acc acc' : List Trade × RiskLimitsState}
    (h : engineBarStep p cfg bars feats sym i ts acc = .ok acc') :
    acc'.2.open_risk_r = acc.2.open_risk_r := by
  obtain ⟨trades, limits⟩ := acc
  unfold engineBarStep at h
  dsimp only at h
  split at h
  · cases h
    rfl
  · split at h
    · cases h
      rfl
    · split at h
      · cases h
        rfl
      · split at h
        · cases h
          rfl
        · rename_i cand rest hrules
          cases hsp : size_position cfg limits cand sym (engineTradeDate ts) with
          | error e =>
            rw [hsp] at h
            simp [bind, Except.bind] at h
          | ok pr =>
            obtain ⟨dec, limits1⟩ := pr
            rw [hsp] at h
            simp only [bind, Except.bind] at h
            split at h
            · cases h
              exact size_position_open_risk hsp
            · split at h
              · cases h
                exact size_position_open_risk hsp
              · rename_i exec hexec
                cases hst : settleTrade sym cfg bars ts cand dec exec with
                | error e =>
                  rw [hst] at h
                  simp [bind, Except.bind] at h
                | ok trade =>
                  rw [hst] at h
                  simp only [bind, Except.bind] at h
                  cases h
                  dsimp only
                  rw [add_realized_r_open, add_trade_open]
                  exact size_position_open_risk hsp

theorem engineLoop_open {F : Type} {p : EnginePipeline F} {cfg : RiskCfg}
    {bars : List Bar} {feats : List (ℤ × F)} {sym : String} :
    ∀ {i : ℕ} {acc acc' : List Trade × RiskLimitsState},
      engineLoop p cfg bars feats sym i acc = .ok acc' →
      acc'.2.open_risk_r = acc.2.open_risk_r := by
  intro i acc
  induction i, acc using engineLoop.induct p cfg bars feats sym with
  | case1 i acc hlt ih =>
    intro acc' h
    rw [engineLoop, dif_pos hlt] at h
    simp only [bind, Except.bind] at h
    cases hstep : engineBarStep p cfg bars feats sym i (feats[i]).1 acc with
    | error e =>
      rw [hstep] at h
      simp at h
    | ok acc1 =>
      rw [hstep] at h
      have h1 := engineBarStep_open hstep
      have h2 := ih acc1 h
      rw [h2, h1]
  | case2 i acc hge =>
    intro acc' h
    rw [engineLoop, dif_neg hge] at h
    cases h
    rfl

/-- Claim C9: throughout any `BacktestEngine.run`, the `RiskLimits`
open-risk counter stays exactly 0 — no engine code path calls
`add_open_risk` or `remove_open_risk` — so for states reached by the
engine the max-open-risk gate `check_max_open_risk` with the fixed
per-trade `risk_r = 1` reduces to the constant test `1 >
max_open_risk_r`, and can only reject when `max_open_risk_r < 1`. -/
theorem engine_open_risk_invariant :
    (∀ {F : Type} (p : EnginePipeline F) (cfg : RiskCfg) (bars : List Bar)
        (sym : String) (res : RunOutput),
        runEngine p cfg bars sym = .ok res → res.limits.open_risk_r = 0) ∧
    (∀ (cfg : RiskCfg) (s : RiskLimitsState), s.open_risk_r = 0 →
        ((check_max_open_risk cfg s 1).1 = true ↔
          ¬ ((1 : ℚ) > cfg.max_open_risk_r))) := by
  constructor
  · intro F p cfg bars sym res h
    unfold runEngine at h
    split at h
    · cases h
      rfl
    · dsimp only at h
      split at h
      · cases h
        rfl
      · simp only [bind, Except.bind] at h
        cases hl : engineLoop p cfg bars (p.build_features bars) sym 100
            ([], initLimits) with
        | error e =>
          rw [hl] at h
          simp at h
        | ok acc =>
          rw [hl] at h
          cases h
          exact engineLoop_open hl
  · intro cfg s hs
    unfold check_max_open_risk
    rw [hs]
    dsimp only
    by_cases hc : (0 : ℚ) + 1 > cfg.max_open_risk_r
    · rw [if_pos hc]
      simp only [zero_add] at hc
      simp [hc]
    · rw [if_neg hc]
      simp only [zero_add] at hc
      simp [hc]

/-- Claim C9, witness: the invariant applied to a concrete (empty-input)
run and to the gate at the initial zero-open-risk state under the
default configuration. -/
theorem engine_open_risk_invariant_witness :
    initLimits.open_risk_r = 0 ∧
    ((check_max_open_risk {} initLimits 1).1 = true ↔
      ¬ ((1 : ℚ) > ({} : RiskCfg).max_open_risk_r)) := by
  constructor
  · exact engine_open_risk_invariant.1 trivPipeline {} ([] : List Bar) "NQ"
      { trades := [], metrics := none, limits := initLimits } rfl
  · exact engine_open_risk_invariant.2 {} initLimits rfl

theorem settleTrade_symbol {sym : String} {cfg : RiskCfg} {bars : List Bar}
    {ts : ℤ} {cand : TradeCandidate} {dec : RiskDecision} {exec : ExecResult}
    {t : Trade} (h : settleTrade sym cfg bars ts cand dec exec = .ok t) :
    t.symbol = sym := by
  unfold settleTrade at h
  cases hspec : get_contract_spec sym with
  | error e =>
    rw [hspec] at h
    simp [bind, Except.bind] at h
  | ok spec =>
    rw [hspec] at h
    simp only [bind, Except.bind] at h
    cases hc1 : calculate_costs sym dec.qty cfg true with
    | error e =>
      rw [hc1] at h
      simp at h
    | ok ec =>
      rw [hc1] at h
      dsimp only at h
      cases hc2 : calculate_costs sym dec.qty cfg false with
      | error e =>
        rw [hc2] at h
        simp at h
      | ok xc =>
        rw [hc2] at h
        dsimp only at h
        cases h
        rfl

theorem engineBarStep_trades {F : Type} {p : EnginePipeline F} {cfg : RiskCfg}
    {bars : List Bar} {feats : List (ℤ × F)} {sym : String} {i : ℕ} {ts : ℤ}
    {acc acc' : List Trade × RiskLimitsState}
    (h : engineBarStep p cfg bars feats sym i ts acc = .ok acc') :
    ∀ t ∈ acc'.1, t ∈ acc.1 ∨ t.symbol = sym := by
  obtain ⟨trades, limits⟩ := acc
  unfold engineBarStep at h
  dsimp only at h
  split at h
  · cases h
    exact fun t ht => .inl ht
  · split at h
    · cases h
      exact fun t ht => .inl ht
    · split at h
      · cases h
        exact fun t ht => .inl ht
      · split at h
        · cases h
          exact fun t ht => .inl ht
        · rename_i cand rest hrules
          cases hsp : size_position cfg limits cand sym (engineTradeDate ts) with
          | error e =>
            rw [hsp] at h
            simp [bind, Except.bind] at h
          | ok pr =>
            obtain ⟨dec, limits1⟩ := pr
            rw [hsp] at h
            simp only [bind, Except.bind] at h
            split at h
            · cases h
              exact fun t ht => .inl ht
            · split at h
              · cases h
                exact fun t ht => .inl ht
              · rename_i exec hexec
                cases hst : settleTrade sym cfg bars ts cand dec exec with
                | error e =>
                  rw [hst] at h
                  simp [bind, Except.bind] at h
                | ok trade =>
                  rw [hst] at h
                  simp only [bind, Except.bind] at h
                  cases h
                  intro t ht
                  dsimp only at ht
                  rw [List.mem_append] at ht
                  rcases ht with ht | ht
                  · exact .inl ht
                  · rw [List.mem_singleton] at ht
                    subst ht
                    exact .inr (settleTrade_symbol hst)

theorem engineLoop_trades {F : Type} {p : EnginePipeline F} {cfg : RiskCfg}
    {bars : List Bar} {feats : List (ℤ × F)} {sym : String} :
    ∀ {i : ℕ} {acc acc' : List Trade × RiskLimitsState},
      engineLoop p cfg bars feats sym i acc = .ok acc' →
      ∀ t ∈ acc'.1, t ∈ acc.1 ∨ t.symbol = sym := by
  intro i acc
  induction i, acc using engineLoop.induct p cfg bars feats sym with
  | case1 i acc hlt ih =>
    intro acc' h t ht
    rw [engineLoop, dif_pos hlt] at h
    simp only [bind, Except.bind] at h
    cases hstep : engineBarStep p cfg bars feats sym i (feats[i]).1 acc with
    | error e =>
      rw [hstep] at h
      simp at h
    | ok acc1 =>
      rw [hstep] at h
      rcases ih acc1 h t ht with h1 | h1
      · exact engineBarStep_trades hstep t h1
      · exact .inr h1
  | case2 i acc hge =>
    intro acc' h t ht
    rw [engineLoop, dif_neg hge] at h
    cases h
    exact .inl ht

/-- Claim C10: (1) with `prefer_micro` enabled, symbol NQ and an MNQ
sizing of at least one contract, `size_position` returns a quantity
computed from the MNQ (micro) point value, and an allowed decision
carries the substituted symbol `"MNQ"`; (2) the engine's settlement
(`settleTrade`, engine.py lines 140-183) is invariant under the
decision's `symbol` field — PnL, costs and `r_mult` come from the run
symbol's contract spec; and (3)/(4) the recorded trade (and every trade
in a run's ledger) carries the original run symbol, not the
substituted one. -/
theorem micro_substitution_and_settlement :
    (∀ (cfg : RiskCfg) (s : RiskLimitsState) (cand : TradeCandidate) (d : ℤ)
        (dec : RiskDecision) (s' : RiskLimitsState),
        cfg.prefer_micro = true → 0 < cand.risk_points →
        1 ≤ ⌊cfg.dollars_per_r * 1 / (cand.risk_points * nqSpec.point_value)⌋ →
        1 ≤ ⌊cfg.dollars_per_r * 1 / (cand.risk_points * mnqSpec.point_value)⌋ →
        size_position cfg s cand "NQ" d = .ok (dec, s') →
        dec.qty = ⌊cfg.dollars_per_r * 1 / (cand.risk_points * mnqSpec.point_value)⌋ ∧
          (dec.allow = true → dec.symbol = some "MNQ")) ∧
    (∀ (sym : String) (cfg : RiskCfg) (bars : List Bar) (ts : ℤ)
        (cand : TradeCandidate) (dec : RiskDecision) (exec : ExecResult)
        (x : Option String),
        settleTrade sym cfg bars ts cand { dec with symbol := x } exec =
          settleTrade sym cfg bars ts cand dec exec) ∧
    (∀ (sym : String) (cfg : RiskCfg) (bars : List Bar) (ts : ℤ)
        (cand : TradeCandidate) (dec : RiskDecision) (exec : ExecResult)
        (t : Trade),
        settleTrade sym cfg bars ts cand dec exec = .ok t → t.symbol = sym) ∧
    (∀ {F : Type} (p : EnginePipeline F) (cfg : RiskCfg) (bars : List Bar)
        (sym : String) (res : RunOutput),
        runEngine p cfg bars sym = .ok res → ∀ t ∈ res.trades, t.symbol = sym) := by
  refine ⟨?_, ?_, ?_, ?_⟩
  · intro cfg s cand d dec s' hm hrp hnq hmnq h
    rw [size_position_eq] at h
    rw [if_neg (not_le.mpr hrp)] at h
    have hgcs : get_contract_spec "NQ" = .ok nqSpec := by
      simp [get_contract_spec]
    rw [hgcs] at h
    dsimp only at h
    rw [if_neg (by omega)] at h
    have hmic : cfg.prefer_micro = true ∧ ("NQ" : String) = "NQ" := ⟨hm, rfl⟩
    rw [if_pos hmic, if_pos hmnq] at h
    split at h
    · cases h
      exact ⟨rfl, by intro hco; cases hco⟩
    · split at h
      · cases h
        exact ⟨rfl, by intro hco; cases hco⟩
      · split at h
        · cases h
          exact ⟨rfl, by intro hco; cases hco⟩
        · cases h
          exact ⟨rfl, fun _ => rfl⟩
  · intro sym cfg bars ts cand dec exec x
    rfl
  · intro sym cfg bars ts cand dec exec t h
    exact settleTrade_symbol h
  · intro F p cfg bars sym res h t ht
    unfold runEngine at h
    split at h
    · cases h
      simp at ht
    · dsimp only at h
      split at h
      · cases h
        simp at ht
      · simp only [bind, Except.bind] at h
        cases hl : engineLoop p cfg bars (p.build_features bars) sym 100
            ([], initLimits) with
        | error e =>
          rw [hl] at h
          simp at h
        | ok acc =>
          rw [hl] at h
          cases h
          rcases engineLoop_trades hl t ht with h1 | h1
          · simp at h1
          · exact h1

/-- Claim C10, witness: the theorem applied to the concrete accepted MNQ
substitution (`cand5w` under defaults) and to a concrete settlement of
that decision on run symbol NQ. -/
theorem micro_substitution_and_settlement_witness :
    (dec5w.qty =
      ⌊({} : RiskCfg).dollars_per_r * 1 / (cand5w.risk_points * mnqSpec.point_value)⌋ ∧
      (dec5w.allow = true → dec5w.symbol = some "MNQ")) ∧
    settleTrade "NQ" {} [] 0 cand5w { dec5w with symbol := some "ZZ" } exec3w =
      settleTrade "NQ" {} [] 0 cand5w dec5w exec3w ∧
    t10w.symbol = "NQ" := by
  have h5 : size_position {} initLimits cand5w "NQ" 0 = .ok (dec5w, s5w) := by
    rw [size_position_eq]
    norm_num [cand5w, dec5w, s5w, get_contract_spec, nqSpec, mnqSpec, initLimits,
      realizedR, tradeCount, reset_daily, List.lookup]
  have h10 : settleTrade "NQ" {} [] 0 cand5w dec5w exec3w = .ok t10w := by
    norm_num [settleTrade, calculate_costs, get_contract_spec, nqSpec,
      cand5w, dec5w, exec3w, t10w, bind, Except.bind, pure, Except.pure]
  refine ⟨?_, ?_, ?_⟩
  · exact micro_substitution_and_settlement.1 {} initLimits cand5w 0 dec5w s5w
      rfl (by norm_num [cand5w]) (by norm_num [cand5w, nqSpec])
      (by norm_num [cand5w, mnqSpec]) h5
  · exact micro_substitution_and_settlement.2.1 "NQ" {} [] 0 cand5w dec5w
      exec3w (some "ZZ")
  · exact micro_substitution_and_settlement.2.2.1 "NQ" {} [] 0 cand5w dec5w
      exec3w t10w h10

theorem mcSamples_trace {S : Type} (draw : S → ℕ → ℕ × S) (r : List ℚ) :
    ∀ (n : ℕ) (s : S),
      mcSamples draw r n s =
        ((indexTrace draw r.length n s).1.map
           (List.map (fun i => r.getD i 0)),
         (indexTrace draw r.length n s).2) := by
  intro n
  induction n with
  | zero => intro s; rfl
  | succ n ih =>
    intro s
    rw [mcSamples, indexTrace, bootstrap_sample]
    rcases hds : drawSeq draw r.length r.length s with ⟨idx, s1⟩
    dsimp only
    rw [ih s1]
    rfl

/-- Claim C8 (amended).  `run_monte_carlo` has no seed parameter: its
randomness is the ambient NumPy global generator, modelled as explicit
state over an abstract index sampler.  The statistics are a pure
function of the trade stream, the simulation count, the confidence
levels and the drawn index streams: two invocations whose ambient
generators produce identical index traces return identical statistics,
whatever the generators and their states are. -/
theorem run_monte_carlo_deterministic {S1 S2 : Type}
    (draw1 : S1 → ℕ → ℕ × S1) (draw2 : S2 → ℕ → ℕ × S2)
    (r : List ℚ) (n : ℕ) (cls : List ℚ) (s1 : S1) (s2 : S2)
    (h : (indexTrace draw1 r.length n s1).1 = (indexTrace draw2 r.length n s2).1) :
    (run_monte_carlo draw1 r n cls s1).1 = (run_monte_carlo draw2 r n cls s2).1 := by
  unfold run_monte_carlo
  split
  · rfl
  · dsimp only
    rw [mcSamples_trace, mcSamples_trace, h]

/-- Claim C8, witness: the determinism theorem applied to two different
generator models (a recorded stream and a counter) whose drawn index
traces coincide on the concrete inputs. -/
theorem run_monte_carlo_deterministic_witness :
    (indexTrace listDraw ([0, 10] : List ℚ).length 1 [0, 1]).1 =
      (indexTrace natDraw ([0, 10] : List ℚ).length 1 0).1 ∧
    (run_monte_carlo listDraw [0, 10] 1 [] [0, 1]).1 =
      (run_monte_carlo natDraw [0, 10] 1 [] 0).1 := by
  have h : (indexTrace listDraw ([0, 10] : List ℚ).length 1 [0, 1]).1 =
      (indexTrace natDraw ([0, 10] : List ℚ).length 1 0).1 := by
    decide
  exact ⟨h, run_monte_carlo_deterministic listDraw natDraw [0, 10] 1 [] [0, 1] 0 h⟩

/-- Claim C8, counterexample: `run_monte_carlo` takes no seed, so "two
invocations with the same trade stream, simulation count and
confidence levels" means two successive calls against the advancing
global generator — and these produce different statistics: with the
recorded-stream generator, the first call on `[0, 10]` bootstraps
`[0, 0]` (mean final R 0) and leaves the generator in a state from
which the second call bootstraps `[10, 10]` (mean final R 20). -/
theorem run_monte_carlo_counterexample :
    run_monte_carlo listDraw [0, 10] 1 [] [0, 0, 1, 1] = (some mcA, [1, 1]) ∧
    run_monte_carlo listDraw [0, 10] 1 [] [1, 1] = (some mcB, []) ∧
    (run_monte_carlo listDraw [0, 10] 1 [] [0, 0, 1, 1]).1 ≠
      (run_monte_carlo listDraw [0, 10] 1 []
        ((run_monte_carlo listDraw [0, 10] 1 [] [0, 0, 1, 1]).2)).1 := by
  have h1 : run_monte_carlo listDraw [0, 10] 1 [] [0, 0, 1, 1] =
      (some mcA, [1, 1]) := by
    norm_num [run_monte_carlo, mcSamples, bootstrap_sample, drawSeq, listDraw,
      cumsum, runningMax, listMinD, listMaxD, listMean, sampleMaxDD, mcA,
      List.scanl, List.getD]
  have h2 : run_monte_carlo listDraw [0, 10] 1 [] [1, 1] =
      (some mcB, []) := by
    norm_num [run_monte_carlo, mcSamples, bootstrap_sample, drawSeq, listDraw,
      cumsum, runningMax, listMinD, listMaxD, listMean, sampleMaxDD, mcB,
      List.scanl, List.getD]
  refine ⟨h1, h2, ?_⟩
  rw [h1, h2]
  intro heq
  have : mcA = mcB := by
    simpa using heq
  have h0 : mcA.final_r_mean = mcB.final_r_mean := by rw [this]
  norm_num [mcA, mcB] at h0
